import Mathlib

/-!
Verification development for the MacroLens nutrition-lookup engine.

This file shallowly embeds, in Lean 4, the Go code of the repository:
the matching service (`internal/usecase/matching_service.go`), the query
preprocessor (`internal/usecase/query_preprocessor.go`), the nutrition
lookup service (`internal/usecase/nutrition_service.go`), the USDA search
client retry loop (`internal/infrastructure/usda/client.go`), the nutrient
mapper (`internal/infrastructure/usda/mapper.go`) and the in-memory TTL
cache (`internal/infrastructure/cache/memory.go`), and proves or refutes
the specified properties of those functions.

Modelling conventions:
- Go `float64` values (scores, weights, nutrient amounts) are modelled as
  `ℚ`; the arithmetic appearing in the code (sums, products, one division,
  comparisons) is exact at these magnitudes, and the spec's claims are
  stated "within rounding".
- Go strings are Lean `String`s; all character classes are expressed via
  Unicode code points (`Char.toNat`), matching Go's byte/rune semantics on
  the relevant alphabets.  `strings.ToLower` is modelled by the ASCII
  lowercase map `Char.toLower`; on every character kept by the pipelines
  below (ASCII letters, digits, whitespace, punctuation) the two agree.
- Go byte lengths (`len(s)`) are modelled by `String.utf8ByteSize`.
- `context.Context` cancellation, logging, and locking are not modelled:
  every theorem is about executions with a non-cancelled context.
- Fallible Go calls returning `(value, error)` pairs are modelled as pairs
  of options, mirroring the code's ability to return data together with an
  error (the low-confidence path does exactly that).
-/

set_option allowUnsafeReducibility true

attribute [semireducible] Rat.add Rat.mul Rat.inv Rat.sub Rat.neg Rat.blt Rat.ofScientific Rat.normalize Rat.maybeNormalize Rat.divInt

namespace MacroLens

/-! ## Character classes and string helpers -/

/-- RE2's `\s` class: `[\t\n\f\r ]` (code points 9, 10, 12, 13, 32).
Used by the compiled regexes in the Go sources. -/
def isRegexSpace (c : Char) : Bool :=
  decide (c.toNat = 9 ∨ c.toNat = 10 ∨ c.toNat = 12 ∨ c.toNat = 13 ∨ c.toNat = 32)

/-- Go's `unicode.IsSpace` (White_Space property), used by `strings.Fields`
and `strings.TrimSpace`. -/
def isUnicodeSpace (c : Char) : Bool :=
  decide ((9 ≤ c.toNat ∧ c.toNat ≤ 13) ∨ c.toNat = 32 ∨ c.toNat = 133 ∨ c.toNat = 160 ∨
    c.toNat = 5760 ∨ (8192 ≤ c.toNat ∧ c.toNat ≤ 8202) ∨ c.toNat = 8232 ∨
    c.toNat = 8233 ∨ c.toNat = 8239 ∨ c.toNat = 8287 ∨ c.toNat = 12288)

/-- ASCII digit `[0-9]`. -/
def isAsciiDigit (c : Char) : Bool := decide (48 ≤ c.toNat ∧ c.toNat ≤ 57)

/-- Lower-case ASCII letter or digit: the class `[a-z0-9]`. -/
def isLowerAlnum (c : Char) : Bool :=
  decide ((97 ≤ c.toNat ∧ c.toNat ≤ 122) ∨ (48 ≤ c.toNat ∧ c.toNat ≤ 57))

/-- RE2's `\w` class `[0-9A-Za-z_]`. -/
def isWordChar (c : Char) : Bool :=
  decide ((48 ≤ c.toNat ∧ c.toNat ≤ 57) ∨ (65 ≤ c.toNat ∧ c.toNat ≤ 90) ∨
    (97 ≤ c.toNat ∧ c.toNat ≤ 122) ∨ c.toNat = 95)

/-- The character class `[a-z0-9\s]` kept (not deleted) by
`normalizeForCacheKey`'s regex. -/
def keepChar (c : Char) : Bool := isLowerAlnum c || isRegexSpace c

/-- `strings.ToLower`, on the character level (ASCII case map; see header). -/
def lowerStr (s : String) : String := String.mk (s.data.map Char.toLower)

/-- Contiguous-sublist test: does `needle` occur inside `hay`? -/
def containsSubList (needle : List Char) : List Char → Bool
  | [] => needle.isEmpty
  | c :: t => needle.isPrefixOf (c :: t) || containsSubList needle t

/-- `strings.Contains hay needle` (substring test; for valid UTF-8 the
byte-level test of Go coincides with this rune-level test). -/
def containsStr (hay needle : String) : Bool := containsSubList needle.data hay.data

/-- Accumulator-based splitter behind `fields`. -/
def fieldsGo (cur : List Char) : List Char → List (List Char)
  | [] => if cur.isEmpty then [] else [cur.reverse]
  | c :: cs =>
    if isUnicodeSpace c then
      if cur.isEmpty then fieldsGo [] cs else cur.reverse :: fieldsGo [] cs
    else fieldsGo (c :: cur) cs

/-- `strings.Fields`: split around runs of white space, dropping empties. -/
def fields (l : List Char) : List (List Char) := fieldsGo [] l

/-! ## Domain model (`internal/domain`) -/

/-- The typed sentinel errors of `internal/domain/errors.go`. -/
inductive DomainError where
  | invalidRequest
  | productNotFound
  | lowConfidence
  | cacheMiss
  | usdaAPIFailure
  | rateLimited
  | cacheUnavailable
deriving DecidableEq, Repr

/-- `domain.SearchRequest`. -/
structure SearchRequest where
  productName : String
  brand : String
  size : String
deriving DecidableEq, Repr

/-- `domain.USDANutrient` (only the fields the core reads). -/
structure USDANutrient where
  nutrientID : Int
  value : ℚ
deriving DecidableEq, Repr

/-- `domain.USDAFood` (only the fields the core reads). -/
structure USDAFood where
  fdcID : Int
  description : String
  dataType : String
  nutrients : List USDANutrient
deriving DecidableEq, Repr

/-- `domain.Nutrients`. -/
structure Nutrients where
  calories : ℚ
  protein : ℚ
  carbohydrates : ℚ
  totalFat : ℚ
deriving DecidableEq, Repr

/-- `domain.NutritionData`.  `cachedAt` is an abstract tick count; `0` is
Go's zero `time.Time`. -/
structure NutritionData where
  fdcID : String
  productName : String
  servingSize : String
  servingSizeUnit : String
  nutrients : Nutrients
  confidence : ℚ
  source : String
  cachedAt : Nat
deriving DecidableEq, Repr

/-- `domain.MatchResult`. -/
structure MatchResult where
  fdcId : String
  description : String
  matchScore : ℚ
  matchedTokens : List String
deriving DecidableEq, Repr

/-! ## Matching service (`internal/usecase/matching_service.go`) -/

def weightFood : ℚ := 3
def weightDescriptive : ℚ := 2
def weightDefault : ℚ := 1
def fuzzyWeightFactor : ℚ := 0.8

def brandMatchBonus : ℚ := 25
def substringMatchBonus : ℚ := 10
def dataTypeBrandedBonus : ℚ := 10
def dataTypeSurveyBonus : ℚ := 5
def dataTypeFoundationBonus : ℚ := 3
def baseScoreMultiplier : ℚ := 70

/-- The `foodTerms` vocabulary (weight 3.0). -/
def foodTerms : List String :=
  ["chicken", "beef", "pork", "fish", "salmon",
   "turkey", "lamb", "shrimp", "tuna", "bacon",
   "sausage", "steak", "ham", "crab", "lobster",
   "milk", "cheese", "yogurt", "butter", "cream",
   "eggs", "egg", "cheddar", "mozzarella", "parmesan",
   "bread", "rice", "pasta", "cereal", "oats",
   "wheat", "flour", "noodles", "tortilla", "bagel",
   "apple", "banana", "orange", "lettuce", "tomato",
   "potato", "onion", "carrot", "broccoli", "spinach",
   "strawberry", "blueberry", "grape", "lemon", "lime",
   "avocado", "cucumber", "pepper", "corn", "beans",
   "juice", "soda", "cola", "coffee", "tea",
   "water", "lemonade", "smoothie", "shake",
   "chips", "crackers", "cookies", "candy", "chocolate",
   "cake", "ice", "pie", "brownie", "popcorn",
   "ketchup", "mustard", "mayo", "mayonnaise", "sauce",
   "salsa", "dressing", "syrup", "honey", "jam",
   "pizza", "burger", "sandwich", "soup", "salad",
   "burrito", "taco", "wrap", "hot", "dog"]

/-- The `descriptiveTerms` vocabulary (weight 2.0). -/
def descriptiveTerms : List String :=
  ["whole", "skim", "reduced", "fat", "low",
   "nonfat", "organic", "natural", "fresh", "frozen",
   "canned", "dried", "raw", "cooked", "grilled",
   "baked", "fried", "roasted", "smoked", "steamed",
   "vanilla", "strawberry", "plain", "flavored",
   "original", "classic", "sweet", "spicy", "mild",
   "hot", "regular", "lite", "light", "diet",
   "white", "brown", "refined", "enriched",
   "fortified", "unsweetened", "sweetened", "salted",
   "unsalted", "boneless", "skinless", "lean",
   "vitamin", "protein", "fiber", "calcium", "iron",
   "omega", "probiotic", "gluten", "free", "added"]

/-- The `extendedStopWords` vocabulary. -/
def extendedStopWords : List String :=
  ["a", "an", "the", "and", "or",
   "of", "in", "on", "at", "to",
   "for", "with", "by", "from", "is",
   "it", "as", "be", "was", "are",
   "oz", "fl", "lb", "lbs", "ml",
   "gallon", "quart", "pint", "liter", "liters",
   "gram", "grams", "kg", "ounce", "ounces",
   "cup", "cups", "tbsp", "tsp",
   "pack", "packs", "count", "ct", "pk",
   "box", "bag", "bottle", "bottles", "can",
   "cans", "carton", "container", "pouch", "jar",
   "tub", "sleeve", "roll", "rolls",
   "size", "value", "family", "each", "per",
   "serving", "servings", "approx", "approximately",
   "bonus", "new", "improved", "product"]

/-- `usecase.MatchConfig`. -/
structure MatchConfig where
  minConfidenceThreshold : ℚ
  enableFuzzyMatching : Bool
  fuzzyEditDistance : Int
deriving DecidableEq, Repr

/-- `usecase.MatchingService` (fields after `NewMatchingService` defaults). -/
structure MatchingService where
  minConfidenceThreshold : ℚ
  enableFuzzyMatching : Bool
  fuzzyEditDistance : Int
deriving DecidableEq, Repr

/-- `usecase.NewMatchingService`: defaults threshold ≤ 0 to 40 and
edit distance ≤ 0 to 1. -/
def NewMatchingService (config : MatchConfig) : MatchingService :=
  { minConfidenceThreshold :=
      if config.minConfidenceThreshold ≤ 0 then 40 else config.minConfidenceThreshold
    enableFuzzyMatching := config.enableFuzzyMatching
    fuzzyEditDistance :=
      if config.fuzzyEditDistance ≤ 0 then 1 else config.fuzzyEditDistance }

/-- The punctuation-and-lowercase pass of `tokenize`: `strings.ToLower`
followed by `punctuationRegex` (`[^\w\s]`) replacing each match with a
space. -/
def punctuationCleaned (s : String) : List Char :=
  (s.data.map Char.toLower).map (fun c => if isWordChar c || isRegexSpace c then c else ' ')

/-- `usecase.isNumeric`: non-empty and all ASCII digits. -/
def isNumericTok (w : String) : Bool := !w.data.isEmpty && w.data.all isAsciiDigit

/-- `usecase.tokenize`: lowercase, replace punctuation by spaces, split on
white space, drop length-≤1 tokens (byte length), stop words, and pure
numeric tokens. -/
def tokenize (s : String) : List String :=
  ((fields (punctuationCleaned s)).map (fun w => String.mk w)).filter
    (fun w => !decide (w.utf8ByteSize ≤ 1) && !extendedStopWords.contains w && !isNumericTok w)

/-- `usecase.getTokenWeight`. -/
def getTokenWeight (token : String) : ℚ :=
  if foodTerms.contains token then weightFood
  else if descriptiveTerms.contains token then weightDescriptive
  else weightDefault

/-- `usecase.TokenWeight`. -/
structure TokenWeight where
  token : String
  weight : ℚ
deriving DecidableEq, Repr

/-- `usecase.tokenizeWithWeights`. -/
def tokenizeWithWeights (s : String) : List TokenWeight :=
  (tokenize s).map (fun t => { token := t, weight := getTokenWeight t })

/-- One row-extension step of the two-row Levenshtein DP
(`usecase.levenshteinDistance`): `left` is `curr[j-1]`, `prev` holds
`prev[j-1], prev[j], ...`, and the characters of the second string drive
the recursion. -/
def levRowAux (c : Char) : Nat → List Nat → List Char → List Nat
  | left, pPrev :: pRest, y :: ys =>
    let pj := pRest.headD 0
    let cost := if c = y then 0 else 1
    let v := min (pj + 1) (min (left + 1) (pPrev + cost))
    v :: levRowAux c v pRest ys
  | _, _, _ => []

/-- Build row `i` of the DP from row `i - 1`. -/
def levRow (c : Char) (i : Nat) (prev : List Nat) (r2 : List Char) : List Nat :=
  i :: levRowAux c i prev r2

/-- `usecase.levenshteinDistance`.  The early-out length checks use byte
lengths (Go `len`), the DP itself runs over runes, as in the source. -/
def levenshteinDistance (s1 s2 : String) : Nat :=
  if s1.utf8ByteSize = 0 then s2.utf8ByteSize
  else if s2.utf8ByteSize = 0 then s1.utf8ByteSize
  else
    let r1 := s1.data
    let r2 := s2.data
    let init := List.range (r2.length + 1)
    let final := (r1.foldl (fun acc c => (levRow c acc.2 acc.1 r2, acc.2 + 1)) (init, 1)).1
    final.getLastD 0

/-- `usecase.fuzzyTokenMatch`. -/
def fuzzyTokenMatch (token1 token2 : String) (threshold : Int) : Bool :=
  if token1 = token2 then true
  else if token1.utf8ByteSize < 4 || token2.utf8ByteSize < 4 then false
  else if ((token1.utf8ByteSize : Int) - token2.utf8ByteSize).natAbs > threshold.toNat then false
  else decide ((levenshteinDistance token1 token2 : Int) ≤ threshold)

/-- Accumulator of the similarity folds: total product weight, matched
weight, matched tokens, and the set of exactly matched token texts. -/
structure SimAcc where
  total : ℚ
  matched : ℚ
  toks : List String
  exacts : List String
deriving DecidableEq, Repr

/-- The loop body of the exact pass: add the product token's weight to the
total; on a hit in the USDA token set add `max` of the weights and record
the token. -/
def exactStep (usdaTokens : List TokenWeight) (acc : SimAcc) (pt : TokenWeight) : SimAcc :=
  let acc := { acc with total := acc.total + pt.weight }
  match usdaTokens.find? (fun ut => ut.token == pt.token) with
  | some ut =>
    { acc with
      matched := acc.matched + max pt.weight ut.weight
      toks := acc.toks ++ [pt.token]
      exacts := acc.exacts ++ [pt.token] }
  | none => acc

/-- First (exact) pass of `usecase.calculateWeightedSimilarity`.  The Go
`usdaSet` map is modelled by `find?` on the token list: the stored weight
is a function of the token text alone, so first and last occurrence agree. -/
def exactPass (productTokens usdaTokens : List TokenWeight) : SimAcc :=
  productTokens.foldl (exactStep usdaTokens)
    { total := 0, matched := 0, toks := [], exacts := [] }

/-- The loop body of the fuzzy pass: skip exactly matched tokens; on the
first fuzzy hit add the weight at the 0.8 factor and record the pair. -/
def fuzzyStep (s : MatchingService) (usdaTokens : List TokenWeight) (exacts : List String)
    (acc : SimAcc) (pt : TokenWeight) : SimAcc :=
  if exacts.contains pt.token then acc
  else
    match usdaTokens.find? (fun ut => fuzzyTokenMatch pt.token ut.token s.fuzzyEditDistance) with
    | some ut =>
      { acc with
        matched := acc.matched + (max pt.weight ut.weight) * fuzzyWeightFactor
        toks := acc.toks ++ [pt.token ++ "~" ++ ut.token] }
    | none => acc

/-- Second (fuzzy) pass of `usecase.calculateWeightedSimilarity`. -/
def fuzzyPass (s : MatchingService) (productTokens usdaTokens : List TokenWeight)
    (acc0 : SimAcc) : SimAcc :=
  productTokens.foldl (fuzzyStep s usdaTokens acc0.exacts) acc0

/-- `usecase.calculateWeightedSimilarity`. -/
def calculateWeightedSimilarity (s : MatchingService)
    (productTokens usdaTokens : List TokenWeight) : ℚ × List String :=
  let acc1 := exactPass productTokens usdaTokens
  let acc2 := if s.enableFuzzyMatching then fuzzyPass s productTokens usdaTokens acc1 else acc1
  if acc2.total = 0 then (0, [])
  else ((acc2.matched / acc2.total) * baseScoreMultiplier, acc2.toks)

/-- The brand-matching bonus step of `usecase.applyBonuses`: `+25` when a
non-empty brand is a case-insensitive substring of the description. -/
def brandBonused (score : ℚ) (brand usdaDesc : String) : ℚ :=
  if brand ≠ "" ∧ containsStr (lowerStr usdaDesc) (lowerStr brand) = true then
    score + brandMatchBonus
  else score

/-- The data-type bonus switch of `usecase.applyBonuses`. -/
def dataTypeBonusOf (dataType : String) : ℚ :=
  if dataType = "Branded" then dataTypeBrandedBonus
  else if dataType = "Survey (FNDDS)" then dataTypeSurveyBonus
  else if dataType = "Foundation" then dataTypeFoundationBonus
  else 0

/-- `usecase.applyBonuses`, in source order: brand bonus, data-type bonus
(added only when positive), substring bonus (only for cleaned names longer
than 5 bytes). -/
def applyBonuses (baseScore : ℚ) (brand usdaDesc productName dataType : String) : ℚ :=
  let score := brandBonused baseScore brand usdaDesc
  let score :=
    if dataTypeBonusOf dataType > 0 then score + dataTypeBonusOf dataType else score
  let score :=
    if (lowerStr productName).utf8ByteSize > 5 ∧
        containsStr (lowerStr usdaDesc) (lowerStr productName) = true then
      score + substringMatchBonus
    else score
  score

/-- `usecase.calculateMatchScore`. -/
def calculateMatchScore (s : MatchingService)
    (productName brand usdaDescription dataType : String) : ℚ × List String :=
  let productTokens := tokenizeWithWeights productName
  let usdaTokens := tokenizeWithWeights usdaDescription
  if productTokens.isEmpty || usdaTokens.isEmpty then (0, [])
  else
    let sim := calculateWeightedSimilarity s productTokens usdaTokens
    let score := applyBonuses sim.1 brand usdaDescription productName dataType
    (if score > 100 then 100 else score, sim.2)

/-- The score `FindBestMatch` computes for one candidate. -/
def scoreOf (s : MatchingService) (req : SearchRequest) (f : USDAFood) : ℚ :=
  (calculateMatchScore s req.productName req.brand f.description f.dataType).1

/-- The `domain.MatchResult` `FindBestMatch` builds for one candidate. -/
def resultFor (s : MatchingService) (req : SearchRequest) (f : USDAFood) : MatchResult :=
  { fdcId := toString f.fdcID
    description := f.description
    matchScore := scoreOf s req f
    matchedTokens := (calculateMatchScore s req.productName req.brand f.description f.dataType).2 }

/-- The loop body of `FindBestMatch`: replace the running best on strict
improvement. -/
def bestStep (s : MatchingService) (req : SearchRequest) (acc : Option MatchResult × ℚ)
    (f : USDAFood) : Option MatchResult × ℚ :=
  if scoreOf s req f > acc.2 then (some (resultFor s req f), scoreOf s req f) else acc

/-- The candidate loop of `FindBestMatch`: strict improvement over the
running best, starting from score `-1`. -/
def bestFold (s : MatchingService) (req : SearchRequest) (foods : List USDAFood) :
    Option MatchResult × ℚ :=
  foods.foldl (bestStep s req) (none, -1)

/-- `usecase.MatchingService.FindBestMatch`.  The Go pair
`(*MatchResult, error)` is modelled as a pair of options: the
low-confidence branch returns both the best match and the error. -/
def FindBestMatch (s : MatchingService) (request : Option SearchRequest)
    (usdaFoods : List USDAFood) : Option MatchResult × Option DomainError :=
  match request with
  | none => (none, some .invalidRequest)
  | some req =>
    if req.productName = "" then (none, some .invalidRequest)
    else if usdaFoods.isEmpty then (none, some .productNotFound)
    else
      match bestFold s req usdaFoods with
      | (none, _) => (none, some .productNotFound)
      | (some best, _) =>
        if best.matchScore < s.minConfidenceThreshold then (some best, some .lowConfidence)
        else (some best, none)

/-! ## Query preprocessor (`internal/usecase/query_preprocessor.go`)

The three leading regex-removal steps of `PreprocessQuery`
(`sizeQuantityPattern`, `packCountPattern`, `standaloneNumberPattern`) are
abstracted as an arbitrary `String → String` parameter: every theorem
below quantifies over it, so it holds in particular for the source's
regexes.  All later steps are embedded concretely. -/

/-- The `queryNoiseWords` vocabulary. -/
def queryNoiseWords : List String :=
  ["value", "family", "bonus", "new", "improved", "premium", "select", "choice",
   "quality", "best", "great", "delicious", "tasty", "favorite", "special",
   "size", "large", "medium", "small", "mini", "jumbo", "giant", "big",
   "snack", "single", "double", "triple",
   "package", "box", "bag", "bottle", "can", "jar", "tub", "carton",
   "sleeve", "pouch", "roll", "tube",
   "food", "item", "product", "brand"]

/-- The cutset of `strings.Trim(word, ",.!?;:-'\"")` in `removeNoiseWords`
(code points 44 46 33 63 59 58 45 39 34). -/
def trimCutset : List Char :=
  [',', '.', '!', '?', ';', ':', '-', Char.ofNat 39, Char.ofNat 34]

/-- `strings.Trim`: drop leading and trailing characters from the cutset. -/
def goTrim (cutset : List Char) (w : List Char) : List Char :=
  ((w.dropWhile (fun c => cutset.contains c)).reverse.dropWhile
    (fun c => cutset.contains c)).reverse

/-- `strings.Join ws " "`. -/
def joinSpace : List (List Char) → List Char
  | [] => []
  | [w] => w
  | w :: ws => w ++ ' ' :: joinSpace ws

/-- `usecase.removeNoiseWords`: lowercase the whole string, split into
fields, keep words whose punctuation-trimmed form is not a noise word,
join with single spaces.  (The Go comment says the original word is
preserved, but the word comes from the lowercased string.) -/
def removeNoiseWords (s : String) : String :=
  let words := fields (s.data.map Char.toLower)
  let kept := words.filter (fun w => !queryNoiseWords.contains (String.mk (goTrim trimCutset w)))
  String.mk (joinSpace kept)

/-- The punctuation class `[,\-;:]` of `cleanOrphanedPunctuation`. -/
def isOrphanPunct (c : Char) : Bool :=
  decide (c.toNat = 44 ∨ c.toNat = 45 ∨ c.toNat = 59 ∨ c.toNat = 58)

/-- Global replacement of `\s+[,\-;:]+\s+` by a single space (leftmost,
non-overlapping, greedy, as RE2's `ReplaceAllString`). -/
def midOrphan : List Char → List Char
  | [] => []
  | c :: cs =>
    if isRegexSpace c then
      if (List.takeWhile isOrphanPunct (List.dropWhile isRegexSpace cs)).isEmpty then
        c :: midOrphan cs
      else if (List.takeWhile isRegexSpace
          (List.dropWhile isOrphanPunct (List.dropWhile isRegexSpace cs))).isEmpty then
        c :: midOrphan cs
      else ' ' :: midOrphan (List.dropWhile isRegexSpace
          (List.dropWhile isOrphanPunct (List.dropWhile isRegexSpace cs)))
    else c :: midOrphan cs
termination_by l => l.length
decreasing_by
  all_goals simp only [List.length_cons]
  all_goals
    first
      | omega
      | exact Nat.lt_succ_of_le
          (((List.dropWhile_sublist _).trans
            ((List.dropWhile_sublist _).trans (List.dropWhile_sublist _))).length_le)

/-- Replacement of the anchored pattern `[,\-;:]+\s*$` by the empty
string: strip a trailing run of white space only when a run of orphan
punctuation immediately precedes it. -/
def dropTrailOrphan (l : List Char) : List Char :=
  if (List.takeWhile isOrphanPunct (List.dropWhile isRegexSpace l.reverse)).isEmpty then l
  else (List.dropWhile isOrphanPunct (List.dropWhile isRegexSpace l.reverse)).reverse

/-- Replacement of the anchored pattern `^\s*[,\-;:]+` by the empty
string. -/
def leadOrphan (l : List Char) : List Char :=
  if (List.takeWhile isOrphanPunct (List.dropWhile isRegexSpace l)).isEmpty then l
  else List.dropWhile isOrphanPunct (List.dropWhile isRegexSpace l)

/-- `usecase.cleanOrphanedPunctuation` (its three regex replacements, in
source order). -/
def cleanOrphanedPunctuation (s : String) : String :=
  String.mk (leadOrphan (dropTrailOrphan (midOrphan s.data)))

/-- Flag-driven implementation of the regex replacement `\s+` → `" "`:
the flag records whether the previous character was white space. -/
def collapseWsGo : Bool → List Char → List Char
  | _, [] => []
  | prevWs, c :: cs =>
    if isRegexSpace c then
      if prevWs then collapseWsGo true cs else ' ' :: collapseWsGo true cs
    else c :: collapseWsGo false cs

/-- Replace every maximal run of `\s` characters by a single space
(`multipleSpacesRegex` / `multiSpacePattern`). -/
def collapseWs (l : List Char) : List Char := collapseWsGo false l

/-- `strings.TrimSpace`. -/
def trimSpace (l : List Char) : List Char :=
  ((l.dropWhile isUnicodeSpace).reverse.dropWhile isUnicodeSpace).reverse

/-- UTF-8 byte length of a character list. -/
def utf8Len (l : List Char) : Nat := l.foldl (fun a c => a + c.utf8Size) 0

/-- Maximal whole-rune prefix of at most `n` UTF-8 bytes (Go's
`cleaned[:100]` slices bytes; on the boundary Go may keep a partial rune,
which a Lean `String` cannot represent — the difference is confined to
that final rune). -/
def takeBytes : Nat → List Char → List Char
  | _, [] => []
  | n, c :: cs => if c.utf8Size ≤ n then c :: takeBytes (n - c.utf8Size) cs else []

/-- The word-boundary cut of step 8: find the last space (byte index, as
`strings.LastIndex`); when its index exceeds 50, cut there. -/
def cutAtLastSpace (l : List Char) : List Char :=
  match l.reverse.dropWhile (fun c => !(c == ' ')) with
  | [] => l
  | _ :: rest => if utf8Len rest.reverse > 50 then rest.reverse else l

/-- Step 8 of `PreprocessQuery`: limit the query to 100 bytes, preferring
a word boundary. -/
def truncateQuery (s : String) : String :=
  if s.utf8ByteSize > 100 then String.mk (cutAtLastSpace (takeBytes 100 s.data))
  else s

/-- Step 7 of `PreprocessQuery`: prepend the brand when it is non-empty
and not already a case-insensitive substring of the cleaned string. -/
def brandStep (brand cleaned : String) : String :=
  if brand ≠ "" ∧ containsStr (lowerStr cleaned) (lowerStr brand) = false then
    brand ++ " " ++ cleaned
  else cleaned

/-- `usecase.QueryPreprocessor.PreprocessQuery`, steps in source order;
`removeSizePatterns` abstracts steps 1–3 (see the section header). -/
def PreprocessQuery (removeSizePatterns : String → String) (productName brand : String) :
    String :=
  if productName = "" then ""
  else
    truncateQuery
      (brandStep brand
        (String.mk (trimSpace (collapseWs
          (cleanOrphanedPunctuation
            (removeNoiseWords (removeSizePatterns productName))).data))))

/-! ## USDA mapper (`internal/infrastructure/usda/mapper.go`) -/

def NutrientIDEnergy : Int := 1008
def NutrientIDProtein : Int := 1003
def NutrientIDCarbohydrate : Int := 1005
def NutrientIDTotalFat : Int := 1004

/-- `usda.extractNutrients`: a switch over the nutrient list; on repeated
codes the last occurrence wins, unmapped codes are ignored, missing codes
stay 0. -/
def extractNutrients (usdaNutrients : List USDANutrient) : Nutrients :=
  usdaNutrients.foldl
    (fun acc n =>
      if n.nutrientID = NutrientIDEnergy then { acc with calories := n.value }
      else if n.nutrientID = NutrientIDProtein then { acc with protein := n.value }
      else if n.nutrientID = NutrientIDCarbohydrate then { acc with carbohydrates := n.value }
      else if n.nutrientID = NutrientIDTotalFat then { acc with totalFat := n.value }
      else acc)
    { calories := 0, protein := 0, carbohydrates := 0, totalFat := 0 }

/-- `usda.MapToNutritionData`. -/
def MapToNutritionData (usdaFood : USDAFood) (confidence : ℚ) : NutritionData :=
  { fdcID := toString usdaFood.fdcID
    productName := usdaFood.description
    servingSize := "100"
    servingSizeUnit := "g"
    nutrients := extractNutrients usdaFood.nutrients
    confidence := confidence
    source := "USDA"
    cachedAt := 0 }

/-! ## JSON values and the cache data model -/

/-- The fragment of Go's `interface{}`-decoded JSON the cache traffics in. -/
inductive Json where
  | str (s : String)
  | num (q : ℚ)
  | obj (fields : List (String × Json))

/-- Go map indexing `data[k]` on a decoded JSON object. -/
def jsonLookup (m : List (String × Json)) (k : String) : Option Json :=
  (m.find? (fun p => p.1 == k)).map (fun p => p.2)

/-- A dynamically typed cache slot (`interface{}`): either a live
`*domain.NutritionData` (as the repo's mock cache stores) or a
JSON-decoded value (as `MemoryCache.Set` stores). -/
inductive CacheValue where
  | nutrition (d : NutritionData)
  | json (j : Json)

/-- Abstract injective rendering of a timestamp, standing for the RFC3339
string `encoding/json` produces for `time.Time`. -/
def goTimeString (t : Nat) : String := toString t

/-- `json.Marshal` of a `domain.NutritionData`, decoded back into a
generic JSON object (field order and names follow the struct tags;
`cachedAt` carries the `omitempty` tag but a `time.Time` struct is never
"empty", so it is always emitted). -/
def marshalNutritionData (d : NutritionData) : Json :=
  .obj [("fdcId", .str d.fdcID),
        ("productName", .str d.productName),
        ("servingSize", .str d.servingSize),
        ("servingSizeUnit", .str d.servingSizeUnit),
        ("nutrients", .obj [("calories", .num d.nutrients.calories),
                            ("protein", .num d.nutrients.protein),
                            ("carbohydrates", .num d.nutrients.carbohydrates),
                            ("totalFat", .num d.nutrients.totalFat)]),
        ("confidence", .num d.confidence),
        ("source", .str d.source),
        ("cachedAt", .str (goTimeString d.cachedAt))]

/-- The serialize/deserialize pass of `MemoryCache.Set` applied to a cache
slot. -/
def marshalCacheValue : CacheValue → Json
  | .nutrition d => marshalNutritionData d
  | .json j => j

/-! ## In-memory TTL cache (`internal/infrastructure/cache/memory.go`) -/

/-- One entry of the cache map (`cacheItem`). -/
structure CacheItem where
  value : Json
  expiration : Nat

/-- The cache map, modelled as Go's `map[string]cacheItem`. -/
def MemoryCacheData := String → Option CacheItem

namespace MemoryCache

/-- `MemoryCache.Get`: lazy expiry — an expired entry reads as a miss.
The method takes only a read lock and never mutates the map, which the
unchanged-state type makes explicit. -/
def Get (st : MemoryCacheData) (now : Nat) (key : String) : Except DomainError Json :=
  match st key with
  | none => .error .cacheMiss
  | some item => if now > item.expiration then .error .cacheMiss else .ok item.value

/-- `MemoryCache.Set`: serialize the value to JSON and back, store with
`expiration = now + ttl`. -/
def Set (st : MemoryCacheData) (now : Nat) (key : String) (value : CacheValue) (ttl : Nat) :
    MemoryCacheData :=
  fun k =>
    if k = key then some { value := marshalCacheValue value, expiration := now + ttl }
    else st k

/-- `MemoryCache.Delete`. -/
def Delete (st : MemoryCacheData) (key : String) : MemoryCacheData :=
  fun k => if k = key then none else st k

/-- `MemoryCache.Exists`. -/
def Exists (st : MemoryCacheData) (now : Nat) (key : String) : Bool :=
  match st key with
  | none => false
  | some item => if now > item.expiration then false else true

/-- One pass of the 10-minute `cleanupExpired` sweep at time `now`. -/
def cleanupExpiredPass (st : MemoryCacheData) (now : Nat) : MemoryCacheData :=
  fun k =>
    match st k with
    | some item => if now > item.expiration then none else some item
    | none => none

end MemoryCache

/-! ## Nutrition lookup service (`internal/usecase/nutrition_service.go`) -/

/-- `usecase.NutritionServiceConfig` (TTL in abstract ticks). -/
structure NutritionServiceConfig where
  cacheTTL : Nat
  minConfidenceThreshold : ℚ
  enableFuzzyMatching : Bool

/-- `usecase.NutritionService` (the dependency-injected cache and client
appear as function parameters of `SearchNutrition`). -/
structure NutritionService where
  matchingService : MatchingService
  cacheTTL : Nat

/-- `usecase.NewNutritionService`: builds the matching service from the
config and defaults the TTL to 720 hours. -/
def NewNutritionService (config : NutritionServiceConfig) : NutritionService :=
  { matchingService :=
      NewMatchingService
        { minConfidenceThreshold := config.minConfidenceThreshold
          enableFuzzyMatching := config.enableFuzzyMatching
          fuzzyEditDistance := 0 }
    cacheTTL := if config.cacheTTL = 0 then 720 * 3600 * 1000000000 else config.cacheTTL }

/-- `usecase.mapToNutritionData`: rebuild a `NutritionData` from a decoded
JSON map, field by type-checked field.  No branch reads `cachedAt`. -/
def mapToNutritionData (data : List (String × Json)) : NutritionData :=
  let result : NutritionData :=
    { fdcID := "", productName := "", servingSize := "", servingSizeUnit := ""
      nutrients := { calories := 0, protein := 0, carbohydrates := 0, totalFat := 0 }
      confidence := 0, source := "", cachedAt := 0 }
  let result := match jsonLookup data "fdcId" with
    | some (.str v) => { result with fdcID := v } | _ => result
  let result := match jsonLookup data "productName" with
    | some (.str v) => { result with productName := v } | _ => result
  let result := match jsonLookup data "servingSize" with
    | some (.str v) => { result with servingSize := v } | _ => result
  let result := match jsonLookup data "servingSizeUnit" with
    | some (.str v) => { result with servingSizeUnit := v } | _ => result
  let result := match jsonLookup data "confidence" with
    | some (.num v) => { result with confidence := v } | _ => result
  let result := match jsonLookup data "source" with
    | some (.str v) => { result with source := v } | _ => result
  match jsonLookup data "nutrients" with
  | some (.obj nutrients) =>
    let result := match jsonLookup nutrients "calories" with
      | some (.num v) => { result with nutrients := { result.nutrients with calories := v } }
      | _ => result
    let result := match jsonLookup nutrients "protein" with
      | some (.num v) => { result with nutrients := { result.nutrients with protein := v } }
      | _ => result
    let result := match jsonLookup nutrients "carbohydrates" with
      | some (.num v) => { result with nutrients := { result.nutrients with carbohydrates := v } }
      | _ => result
    let result := match jsonLookup nutrients "totalFat" with
      | some (.num v) => { result with nutrients := { result.nutrients with totalFat := v } }
      | _ => result
    result
  | _ => result

/-- `usecase.normalizeForCacheKey`: lowercase, delete every character
outside `[a-z0-9\s]` (the regex replaces matches with the empty string),
collapse `\s+` runs to one space, trim. -/
def normalizeForCacheKey (s : String) : String :=
  if s = "" then ""
  else
    let result := s.data.map Char.toLower
    let result := result.filter keepChar
    let result := collapseWs result
    String.mk (trimSpace result)

/-- `usecase.NutritionService.generateCacheKey`. -/
def generateCacheKey (request : SearchRequest) : String :=
  "nutrition:" ++ normalizeForCacheKey request.productName ++ ":" ++
    normalizeForCacheKey request.brand

/-- `usecase.NutritionService.getFromCache`: errors pass through; a live
`*NutritionData` is returned as is; a JSON map goes through
`mapToNutritionData`; any other dynamic type is a cache miss. -/
def getFromCache (cacheGet : String → Except DomainError CacheValue) (key : String) :
    Except DomainError NutritionData :=
  match cacheGet key with
  | .error e => .error e
  | .ok (.nutrition d) => .ok d
  | .ok (.json (.obj m)) => .ok (mapToNutritionData m)
  | .ok (.json _) => .error .cacheMiss

/-- `usecase.NutritionService.mapMatchToNutrition`: find the food whose
formatted FdcID equals the match's, map it; `none` models the Go `nil`
fallback. -/
def mapMatchToNutrition (foods : List USDAFood) (mtch : MatchResult) : Option NutritionData :=
  (foods.find? (fun food => toString food.fdcID == mtch.fdcId)).map
    (fun food => MapToNutritionData food mtch.matchScore)

/-- The observable outcome of one `SearchNutrition` call: the returned
data/error pair plus the list of `cache.Set` invocations it performed. -/
structure SearchOutcome where
  data : Option NutritionData
  err : Option DomainError
  setCalls : List (String × NutritionData × Nat)
deriving DecidableEq

/-- `usecase.NutritionService.SearchNutrition`.  The injected
collaborators appear as function arguments: `cacheGet` is the cache's
`Get`, `searchClient` the USDA client's `SearchFoods` (already projected
to its food list), `removeSizePatterns` the preprocessor's regex steps,
`now` the current time used by `setInCache` for `CachedAt`. -/
def SearchNutrition (svc : NutritionService)
    (cacheGet : String → Except DomainError CacheValue)
    (searchClient : String → Except DomainError (List USDAFood))
    (removeSizePatterns : String → String)
    (now : Nat)
    (request : Option SearchRequest) : SearchOutcome :=
  match request with
  | none => { data := none, err := some .invalidRequest, setCalls := [] }
  | some req =>
    if req.productName = "" then { data := none, err := some .invalidRequest, setCalls := [] }
    else
      let cacheKey := generateCacheKey req
      match getFromCache cacheGet cacheKey with
      | .ok cached =>
        { data := some { cached with source := "Cache" }, err := none, setCalls := [] }
      | .error _ =>
        let query := PreprocessQuery removeSizePatterns req.productName req.brand
        match searchClient query with
        | .error _ => { data := none, err := some .usdaAPIFailure, setCalls := [] }
        | .ok foods =>
          if foods.isEmpty then { data := none, err := some .productNotFound, setCalls := [] }
          else
            match FindBestMatch svc.matchingService (some req) foods with
            | (matchResult, some e) =>
              if e = .lowConfidence ∧ matchResult.isSome then
                match matchResult with
                | some mr => { data := mapMatchToNutrition foods mr, err := some e, setCalls := [] }
                | none => { data := none, err := some e, setCalls := [] }
              else { data := none, err := some e, setCalls := [] }
            | (matchResult, none) =>
              match matchResult with
              | some mr =>
                match mapMatchToNutrition foods mr with
                | some nd =>
                  let nd := { nd with cachedAt := now }
                  { data := some nd, err := none, setCalls := [(cacheKey, nd, svc.cacheTTL)] }
                | none => { data := none, err := none, setCalls := [] }
              | none => { data := none, err := none, setCalls := [] }

/-- `setInCache` composed with the in-memory cache: stamp `CachedAt`,
then `MemoryCache.Set`. -/
def setInCacheMem (st : MemoryCacheData) (now : Nat) (key : String) (d : NutritionData)
    (ttl : Nat) : MemoryCacheData :=
  MemoryCache.Set st now key (.nutrition { d with cachedAt := now }) ttl

/-- The lookup service's cache-read path over the in-memory cache:
`MemoryCache.Get`, then `getFromCache`, then the `Source = "Cache"` flip
of the `SearchNutrition` cache-hit branch. -/
def lookupCacheRead (st : MemoryCacheData) (now : Nat) (key : String) : Option NutritionData :=
  match getFromCache (fun k => (MemoryCache.Get st now k).map CacheValue.json) key with
  | .ok d => some { d with source := "Cache" }
  | .error _ => none

/-! ## USDA search client (`internal/infrastructure/usda/client.go`) -/

/-- What one loop iteration of `SearchFoods` observes: either a transport
error from `doRequest`, or an HTTP response with a status, a flag for
whether the (4KB-capped) body contains `"nginx"`, and — for status 200 —
the decoded food list (`none` models a body-read/JSON-decode failure). -/
inductive AttemptOutcome where
  | netErr
  | httpResp (status : Nat) (nginxBody : Bool) (parsed : Option (List USDAFood))
deriving DecidableEq

/-- The outcomes `SearchFoods` can produce. -/
inductive ClientResult where
  | ok (foods : List USDAFood)
  | errNotFound
  | errAPIStatus (status : Nat)
  | errNet
  | errDecode
deriving DecidableEq

/-- Whether one iteration returns or falls through to the next attempt. -/
inductive StepOutcome where
  | finish (r : ClientResult)
  | retry (lastErr : ClientResult)
deriving DecidableEq

/-- The retry condition of the loop body: 5xx, 429, or a 400 whose body
contains the nginx marker. -/
def retryableStatus (status : Nat) (nginxBody : Bool) : Bool :=
  decide (500 ≤ status) || decide (status = 429) || (decide (status = 400) && nginxBody)

/-- One iteration of the `SearchFoods` retry loop, in source order:
transport errors retry; non-200 statuses check 404 first, then the retry
condition, then fail permanently; 200 decodes, mapping an empty food list
to `ErrProductNotFound`. -/
def attemptStep : AttemptOutcome → StepOutcome
  | .netErr => .retry .errNet
  | .httpResp status nginxBody parsed =>
    if status ≠ 200 then
      if status = 404 then .finish .errNotFound
      else if retryableStatus status nginxBody then .retry (.errAPIStatus status)
      else .finish (.errAPIStatus status)
    else
      match parsed with
      | none => .finish .errDecode
      | some foods => if foods.isEmpty then .finish .errNotFound else .finish (.ok foods)

/-- `usda.exponentialBackoff`: `500 * (1 << (attempt-1))` milliseconds. -/
def exponentialBackoff (attempt : Nat) : Nat := 500 * 2 ^ (attempt - 1)

/-- The observable trace of one `SearchFoods` call: final result, number
of attempts made, and the sleeps performed (in milliseconds, in order). -/
structure SearchTrace where
  result : ClientResult
  attempts : Nat
  sleepsMs : List Nat
deriving DecidableEq

/-- `usda.Client.SearchFoods` over a stream of per-attempt outcomes.  The
loop bound 3 is unrolled as in the source (`for attempt := 1; attempt <= 3`);
note the loop sleeps after a retryable failure even on the last attempt. -/
def SearchFoods (responses : Nat → AttemptOutcome) : SearchTrace :=
  match attemptStep (responses 1) with
  | .finish r => { result := r, attempts := 1, sleepsMs := [] }
  | .retry _ =>
    match attemptStep (responses 2) with
    | .finish r => { result := r, attempts := 2, sleepsMs := [exponentialBackoff 1] }
    | .retry _ =>
      match attemptStep (responses 3) with
      | .finish r =>
        { result := r, attempts := 3
          sleepsMs := [exponentialBackoff 1, exponentialBackoff 2] }
      | .retry e3 =>
        { result := e3, attempts := 3
          sleepsMs := [exponentialBackoff 1, exponentialBackoff 2, exponentialBackoff 3] }

/-! ## Auxiliary definitions used by theorem statements -/

/-- Whether one attempt outcome makes the `SearchFoods` loop fall through
to the next attempt. -/
def isRetryStep (o : AttemptOutcome) : Bool :=
  match attemptStep o with
  | .retry _ => true
  | .finish _ => false

/-- The candidate score before the final 100 cap of
`calculateMatchScore` (the similarity base plus `applyBonuses`). -/
def uncappedScore (s : MatchingService)
    (productName brand usdaDescription dataType : String) : ℚ :=
  applyBonuses
    (calculateWeightedSimilarity s (tokenizeWithWeights productName)
      (tokenizeWithWeights usdaDescription)).1
    brand usdaDescription productName dataType

/-- Not an ASCII upper-case letter. -/
def notUpperChar (c : Char) : Bool := !(decide (65 ≤ c.toNat ∧ c.toNat ≤ 90))

/-- No two adjacent `\s` characters. -/
def noAdjWs (l : List Char) : Prop :=
  List.Chain' (fun a b => ¬(isRegexSpace a = true ∧ isRegexSpace b = true)) l

/-- A character as it appears in `normalizeForCacheKey` output: a
lower-case alphanumeric or a single plain space. -/
def canonChar (c : Char) : Prop := isLowerAlnum c = true ∨ c = ' '

/-! ## Helper lemmas -/

theorem charOfNat_toNat (n : Nat) (h : n < 55296) : (Char.ofNat n).toNat = n := by
  have hv : n.isValidChar := Or.inl h
  simp [Char.ofNat, hv, Char.ofNatAux, Char.toNat, UInt32.toNat, BitVec.toNat_ofNatLt]

theorem toLower_eq_self_of_not_upper (c : Char) (h : ¬(65 ≤ c.toNat ∧ c.toNat ≤ 90)) :
    Char.toLower c = c := by
  unfold Char.toLower
  simp only [ge_iff_le, if_neg h]

theorem toLower_notUpper (c : Char) : notUpperChar (Char.toLower c) = true := by
  unfold notUpperChar
  by_cases h : 65 ≤ c.toNat ∧ c.toNat ≤ 90
  · unfold Char.toLower
    simp only [ge_iff_le, h, and_self, if_pos]
    rw [Bool.not_eq_true', decide_eq_false_iff_not]
    rw [charOfNat_toNat (c.toNat + 32) (by omega)]
    omega
  · rw [toLower_eq_self_of_not_upper c h]
    rw [Bool.not_eq_true', decide_eq_false_iff_not]
    exact h

theorem toLower_toNat_not_upper (c : Char) :
    ¬(65 ≤ (Char.toLower c).toNat ∧ (Char.toLower c).toNat ≤ 90) := by
  have h := toLower_notUpper c
  unfold notUpperChar at h
  rw [Bool.not_eq_true', decide_eq_false_iff_not] at h
  exact h

/-! ## C4: cache-key normalization collides dashed and spaced names? -/

/-- Claim C4 (counterexample): the two requests of the claim produce
different cache keys, because `normalizeForCacheKey` deletes the hyphen
outright: `"Coca-Cola"` normalizes to `"cocacola"`, while `"coca cola"`
keeps its space. -/
theorem C4_counterexample :
    generateCacheKey { productName := "Coca-Cola", brand := "Great Value", size := "" }
      ≠ generateCacheKey { productName := "coca cola", brand := "great value", size := "" } := by
  decide

/-- Claim C4 (amended): cache keys are deterministic and case- and
whitespace-run-insensitive, but punctuation is deleted without leaving a
space, so `{"Coca-Cola","Great Value"}` yields
`"nutrition:cocacola:great value"` while `{"coca cola","great value"}`
yields `"nutrition:coca cola:great value"` — two different keys. -/
theorem C4_amended_keys :
    generateCacheKey { productName := "Coca-Cola", brand := "Great Value", size := "" }
      = "nutrition:cocacola:great value"
    ∧ generateCacheKey { productName := "coca cola", brand := "great value", size := "" }
      = "nutrition:coca cola:great value"
    ∧ generateCacheKey { productName := "COCA  COLA", brand := "GREAT VALUE", size := "" }
      = generateCacheKey { productName := "coca cola", brand := "great value", size := "" } := by
  refine ⟨by decide, by decide, by decide⟩

/-! ## C6: expired entries on read -/

/-- Claim C6 (counterexample): a `Get` on an expired entry misses but does
not evict: `MemoryCache.Get` takes only a read lock and performs no
deletion, so the entry is still in the map afterwards (the state is
unchanged — `Get` does not even return a new state). -/
theorem C6_counterexample :
    MemoryCache.Get
        (fun k => if k = "k" then some { value := Json.str "v", expiration := 5 } else none)
        10 "k" = .error .cacheMiss
    ∧ (fun k => if k = "k" then some { value := Json.str "v", expiration := 5 } else none) "k"
        ≠ (none : Option CacheItem) := by
  constructor
  · rfl
  · show some { value := Json.str "v", expiration := 5 } ≠ (none : Option CacheItem)
    exact fun h => Option.noConfusion h

/-- Claim C6 (amended): a `Get` whose entry is expired returns the cache
miss error and leaves the entry in place (`Get` is read-only); expired
entries are removed only by the periodic 10-minute background sweep, which
deletes exactly the expired entries and preserves the rest. -/
theorem C6_amended (st : MemoryCacheData) (now : Nat) (key : String) (item : CacheItem)
    (hs : st key = some item) (hexp : now > item.expiration) :
    MemoryCache.Get st now key = .error .cacheMiss
    ∧ st key = some item
    ∧ MemoryCache.cleanupExpiredPass st now key = none
    ∧ (∀ k it, st k = some it → ¬now > it.expiration →
        MemoryCache.cleanupExpiredPass st now k = some it) := by
  refine ⟨?_, hs, ?_, ?_⟩
  · unfold MemoryCache.Get
    rw [hs]
    simp [hexp]
  · unfold MemoryCache.cleanupExpiredPass
    rw [hs]
    simp [hexp]
  · intro k it hk hexp2
    unfold MemoryCache.cleanupExpiredPass
    rw [hk]
    simp [hexp2]

/-- Witness for the amended C6 theorem at a concrete state. -/
theorem C6_amended_witness :
    MemoryCache.Get
        (fun k => if k = "k" then some { value := Json.str "v", expiration := 5 } else none)
        10 "k" = .error .cacheMiss
    ∧ (fun k => if k = "k" then some ({ value := Json.str "v", expiration := 5 } : CacheItem) else none) "k"
        = some ({ value := Json.str "v", expiration := 5 } : CacheItem)
    ∧ MemoryCache.cleanupExpiredPass
        (fun k => if k = "k" then some { value := Json.str "v", expiration := 5 } else none)
        10 "k" = none
    ∧ (∀ k it,
        (fun k => if k = "k" then some ({ value := Json.str "v", expiration := 5 } : CacheItem) else none) k
          = some it →
        ¬(10 : Nat) > it.expiration →
        MemoryCache.cleanupExpiredPass
          (fun k => if k = "k" then some { value := Json.str "v", expiration := 5 } else none)
          10 k = some it) :=
  C6_amended
    (fun k => if k = "k" then some { value := Json.str "v", expiration := 5 } else none)
    10 "k" { value := Json.str "v", expiration := 5 } rfl (by decide)

/-! ## C7: empty candidate list -/

/-- Claim C7 (counterexample): with a nil request and an empty candidate
list, `FindBestMatch` fails with `InvalidRequest`, not `NotFound` — the
nil/empty-name check runs first. -/
theorem C7_counterexample :
    FindBestMatch
        (NewMatchingService
          { minConfidenceThreshold := 0, enableFuzzyMatching := false, fuzzyEditDistance := 0 })
        none [] = (none, some .invalidRequest)
    ∧ ((none : Option MatchResult), some DomainError.invalidRequest)
        ≠ ((none : Option MatchResult), some DomainError.productNotFound) := by
  exact ⟨rfl, by decide⟩

/-- Claim C7 (amended): for every request that passes validation (non-nil
with non-empty `productName`), `FindBestMatch` on an empty candidate list
fails with `NotFound`; a nil request or empty `productName` instead fails
with `InvalidRequest`, which takes precedence. -/
theorem C7_amended (config : MatchConfig) (req : SearchRequest)
    (h : req.productName ≠ "") :
    FindBestMatch (NewMatchingService config) (some req) [] = (none, some .productNotFound)
    ∧ (∀ cfg2 : MatchConfig, FindBestMatch (NewMatchingService cfg2) none []
        = (none, some .invalidRequest)) := by
  constructor
  · simp [FindBestMatch, h]
  · intro cfg2
    rfl

/-- Witness for the amended C7 theorem. -/
theorem C7_amended_witness :
    FindBestMatch
        (NewMatchingService
          { minConfidenceThreshold := 0, enableFuzzyMatching := false, fuzzyEditDistance := 0 })
        (some { productName := "milk", brand := "", size := "" }) []
      = (none, some .productNotFound)
    ∧ (∀ cfg2 : MatchConfig, FindBestMatch (NewMatchingService cfg2) none []
        = (none, some .invalidRequest)) :=
  C7_amended
    { minConfidenceThreshold := 0, enableFuzzyMatching := false, fuzzyEditDistance := 0 }
    { productName := "milk", brand := "", size := "" } (by decide)

/-! ## C8: brand-bonus monotonicity -/

theorem brandBonused_diff (base : ℚ) (brandM brandO usdaDesc : String)
    (h1 : brandM ≠ "")
    (h2 : containsStr (lowerStr usdaDesc) (lowerStr brandM) = true)
    (h3 : brandO = "" ∨ containsStr (lowerStr usdaDesc) (lowerStr brandO) = false) :
    brandBonused base brandM usdaDesc = brandBonused base brandO usdaDesc + brandMatchBonus := by
  unfold brandBonused
  rw [if_pos ⟨h1, h2⟩, if_neg ?_]
  rintro ⟨hne, hc⟩
  rcases h3 with h | h
  · exact hne h
  · rw [h] at hc
    cases hc

theorem applyBonuses_brand_diff (base : ℚ)
    (brandM brandO usdaDesc productName dataType : String)
    (h1 : brandM ≠ "")
    (h2 : containsStr (lowerStr usdaDesc) (lowerStr brandM) = true)
    (h3 : brandO = "" ∨ containsStr (lowerStr usdaDesc) (lowerStr brandO) = false) :
    applyBonuses base brandM usdaDesc productName dataType
      = applyBonuses base brandO usdaDesc productName dataType + brandMatchBonus := by
  have hb := brandBonused_diff base brandM brandO usdaDesc h1 h2 h3
  by_cases hdt : dataTypeBonusOf dataType > 0 <;>
  by_cases hsub : (lowerStr productName).utf8ByteSize > 5 ∧
      containsStr (lowerStr usdaDesc) (lowerStr productName) = true <;>
  simp only [applyBonuses, hdt, hsub, if_true, if_false, and_self, if_pos, if_neg,
    not_false_iff] <;>
  rw [hb] <;> ring

/-- The 100 cap of `calculateMatchScore`, as a `min`. -/
theorem cap_eq_min (q : ℚ) : (if q > 100 then (100 : ℚ) else q) = min 100 q := by
  by_cases h : q > 100
  · rw [if_pos h, min_eq_left (le_of_lt h)]
  · rw [if_neg h, min_eq_right (not_lt.mp h)]

theorem calculateMatchScore_eq_min (s : MatchingService)
    (productName brand usdaDescription dataType : String)
    (hp : tokenizeWithWeights productName ≠ [])
    (hd : tokenizeWithWeights usdaDescription ≠ []) :
    (calculateMatchScore s productName brand usdaDescription dataType).1
      = min 100 (uncappedScore s productName brand usdaDescription dataType) := by
  have hp2 : (tokenizeWithWeights productName).isEmpty = false := by
    cases h : tokenizeWithWeights productName
    · exact absurd h hp
    · rfl
  have hd2 : (tokenizeWithWeights usdaDescription).isEmpty = false := by
    cases h : tokenizeWithWeights usdaDescription
    · exact absurd h hd
    · rfl
  unfold calculateMatchScore uncappedScore
  simp only [hp2, hd2, Bool.or_self, Bool.false_eq_true, if_false, cap_eq_min]

/-- Claim C8 (amended): with identical tokens, a matching brand adds
exactly the 25-point bonus to the score *before* the 100 cap; the returned
score is the cap of that, so the visible increase is exactly 25 whenever
the boosted score stays within the cap.  (The hypotheses require non-empty
token lists; with empty tokens `calculateMatchScore` short-circuits to 0
regardless of brand.) -/
theorem C8_amended (s : MatchingService)
    (productName brandM brandO usdaDescription dataType : String)
    (h1 : brandM ≠ "")
    (h2 : containsStr (lowerStr usdaDescription) (lowerStr brandM) = true)
    (h3 : brandO = "" ∨ containsStr (lowerStr usdaDescription) (lowerStr brandO) = false) :
    uncappedScore s productName brandM usdaDescription dataType
      = uncappedScore s productName brandO usdaDescription dataType + brandMatchBonus
    ∧ (tokenizeWithWeights productName ≠ [] → tokenizeWithWeights usdaDescription ≠ [] →
        (calculateMatchScore s productName brandM usdaDescription dataType).1
          = min 100 (uncappedScore s productName brandO usdaDescription dataType
              + brandMatchBonus)
        ∧ (calculateMatchScore s productName brandO usdaDescription dataType).1
          = min 100 (uncappedScore s productName brandO usdaDescription dataType)
        ∧ (uncappedScore s productName brandO usdaDescription dataType + brandMatchBonus ≤ 100 →
            (calculateMatchScore s productName brandM usdaDescription dataType).1
              = (calculateMatchScore s productName brandO usdaDescription dataType).1
                + brandMatchBonus)) := by
  have hdiff : uncappedScore s productName brandM usdaDescription dataType
      = uncappedScore s productName brandO usdaDescription dataType + brandMatchBonus := by
    unfold uncappedScore
    exact applyBonuses_brand_diff _ brandM brandO usdaDescription productName dataType h1 h2 h3
  refine ⟨hdiff, fun hp hd => ⟨?_, ?_, ?_⟩⟩
  · rw [calculateMatchScore_eq_min s productName brandM usdaDescription dataType hp hd, hdiff]
  · exact calculateMatchScore_eq_min s productName brandO usdaDescription dataType hp hd
  · intro hcap
    rw [calculateMatchScore_eq_min s productName brandM usdaDescription dataType hp hd,
      calculateMatchScore_eq_min s productName brandO usdaDescription dataType hp hd,
      hdiff, min_eq_right hcap, min_eq_right ?_]
    have hb0 : (0 : ℚ) < brandMatchBonus := by decide
    linarith [hcap, hb0]

/-- Claim C8 (counterexample to the original claim): for the query
`"milk"` against description `"milk"` of data type `"Branded"`, the score
without brand is 80 and with the matching brand `"milk"` it is 100 (the
cap), an increase of 20, not 25. -/
theorem C8_counterexample :
    ¬((calculateMatchScore
          (NewMatchingService
            { minConfidenceThreshold := 0, enableFuzzyMatching := false, fuzzyEditDistance := 0 })
          "milk" "milk" "milk" "Branded").1
        = (calculateMatchScore
            (NewMatchingService
              { minConfidenceThreshold := 0, enableFuzzyMatching := false,
                fuzzyEditDistance := 0 })
            "milk" "" "milk" "Branded").1 + 25)
    ∧ (calculateMatchScore
        (NewMatchingService
          { minConfidenceThreshold := 0, enableFuzzyMatching := false, fuzzyEditDistance := 0 })
        "milk" "milk" "milk" "Branded").1 = 100
    ∧ (calculateMatchScore
        (NewMatchingService
          { minConfidenceThreshold := 0, enableFuzzyMatching := false, fuzzyEditDistance := 0 })
        "milk" "" "milk" "Branded").1 = 80 := by
  refine ⟨by decide, by decide, by decide⟩

/-- Witness for the amended C8 theorem: against description `"milk"` with
no data type, the without-brand score is 70, within the cap, and adding
the matching brand raises the returned score by exactly 25. -/
theorem C8_amended_witness :
    uncappedScore
        (NewMatchingService
          { minConfidenceThreshold := 0, enableFuzzyMatching := false, fuzzyEditDistance := 0 })
        "milk" "milk" "milk" ""
      = uncappedScore
          (NewMatchingService
            { minConfidenceThreshold := 0, enableFuzzyMatching := false, fuzzyEditDistance := 0 })
          "milk" "" "milk" "" + brandMatchBonus
    ∧ (calculateMatchScore
        (NewMatchingService
          { minConfidenceThreshold := 0, enableFuzzyMatching := false, fuzzyEditDistance := 0 })
        "milk" "milk" "milk" "").1
      = (calculateMatchScore
          (NewMatchingService
            { minConfidenceThreshold := 0, enableFuzzyMatching := false, fuzzyEditDistance := 0 })
          "milk" "" "milk" "").1 + brandMatchBonus :=
  ⟨(C8_amended _ "milk" "milk" "" "milk" "" (by decide) (by decide) (Or.inl rfl)).1,
   ((C8_amended _ "milk" "milk" "" "milk" "" (by decide) (by decide) (Or.inl rfl)).2
      (by decide) (by decide)).2.2 (by decide)⟩

/-! ## C5: cache write/read round trip -/

theorem mapToNutritionData_marshal (f p ss su : String) (ncal npro ncarb nfat : ℚ)
    (c : ℚ) (src ts : String) :
    mapToNutritionData
      [("fdcId", .str f),
       ("productName", .str p),
       ("servingSize", .str ss),
       ("servingSizeUnit", .str su),
       ("nutrients", .obj [("calories", .num ncal),
                           ("protein", .num npro),
                           ("carbohydrates", .num ncarb),
                           ("totalFat", .num nfat)]),
       ("confidence", .num c),
       ("source", .str src),
       ("cachedAt", .str ts)]
      = { fdcID := f, productName := p, servingSize := ss, servingSizeUnit := su
          nutrients := { calories := ncal, protein := npro, carbohydrates := ncarb,
                         totalFat := nfat }
          confidence := c, source := src, cachedAt := 0 } := rfl

/-- Claim C5 (amended): a `NutritionFacts` written through `setInCache`
(which stamps `CachedAt := now`) into the in-memory cache and read back
through the lookup service's cache-read path before expiry comes back
with every field identical to the written value except two: `source`
flips to `"Cache"`, and `cachedAt` resets to the zero time, because
`mapToNutritionData` never reads the `cachedAt` key of the stored JSON. -/
theorem C5_amended (st : MemoryCacheData) (d : NutritionData) (key : String)
    (now0 ttl now1 : Nat) (h : ¬now1 > now0 + ttl) :
    lookupCacheRead (setInCacheMem st now0 key d ttl) now1 key
      = some { d with source := "Cache", cachedAt := 0 } := by
  unfold lookupCacheRead getFromCache setInCacheMem MemoryCache.Set MemoryCache.Get
  simp only [if_pos rfl, if_true, if_neg h, marshalCacheValue, marshalNutritionData, Except.map]
  rw [mapToNutritionData_marshal]

/-- Witness for the amended C5 theorem at a concrete value and time. -/
theorem C5_amended_witness :
    lookupCacheRead
        (setInCacheMem (fun _ => none) 7 "k"
          { fdcID := "1", productName := "Milk", servingSize := "100", servingSizeUnit := "g"
            nutrients := { calories := 150, protein := 8, carbohydrates := 12, totalFat := 7 }
            confidence := 85, source := "USDA", cachedAt := 3 } 10)
        8 "k"
      = some
          { fdcID := "1", productName := "Milk", servingSize := "100", servingSizeUnit := "g"
            nutrients := { calories := 150, protein := 8, carbohydrates := 12, totalFat := 7 }
            confidence := 85, source := "Cache", cachedAt := 0 } :=
  C5_amended (fun _ => none)
    { fdcID := "1", productName := "Milk", servingSize := "100", servingSizeUnit := "g"
      nutrients := { calories := 150, protein := 8, carbohydrates := 12, totalFat := 7 }
      confidence := 85, source := "USDA", cachedAt := 3 }
    "k" 7 10 8 (by decide)

/-- Claim C5 (counterexample): the value written at time 7 carries
`cachedAt = 7`, but the read-back value's `cachedAt` is the zero time, so
the round trip is not identical-except-`source` as claimed. -/
theorem C5_counterexample :
    lookupCacheRead
        (setInCacheMem (fun _ => none) 7 "k"
          { fdcID := "1", productName := "Milk", servingSize := "100", servingSizeUnit := "g"
            nutrients := { calories := 150, protein := 8, carbohydrates := 12, totalFat := 7 }
            confidence := 85, source := "USDA", cachedAt := 3 } 10)
        8 "k"
      ≠ some
          { fdcID := "1", productName := "Milk", servingSize := "100", servingSizeUnit := "g"
            nutrients := { calories := 150, protein := 8, carbohydrates := 12, totalFat := 7 }
            confidence := 85, source := "Cache", cachedAt := 7 }
    ∧ (setInCacheMem (fun _ => none) 7 "k"
        { fdcID := "1", productName := "Milk", servingSize := "100", servingSizeUnit := "g"
          nutrients := { calories := 150, protein := 8, carbohydrates := 12, totalFat := 7 }
          confidence := 85, source := "USDA", cachedAt := 3 } 10) "k"
      = some { value := marshalNutritionData
                  { fdcID := "1", productName := "Milk", servingSize := "100"
                    servingSizeUnit := "g"
                    nutrients := { calories := 150, protein := 8, carbohydrates := 12,
                                   totalFat := 7 }
                    confidence := 85, source := "USDA", cachedAt := 7 }
               expiration := 17 } := by
  constructor
  · decide
  · rfl

/-! ## Matching-service lemmas: scores are nonnegative, the fold picks
the first maximum -/

theorem isEmpty_false_of_ne_nil {α : Type} (l : List α) (h : l ≠ []) : l.isEmpty = false := by
  cases l
  · exact absurd rfl h
  · rfl

theorem getTokenWeight_nonneg (t : String) : 0 ≤ getTokenWeight t := by
  unfold getTokenWeight
  split
  · decide
  · split
    · decide
    · decide

theorem tokenizeWithWeights_nonneg (s : String) :
    ∀ t ∈ tokenizeWithWeights s, 0 ≤ t.weight := by
  intro t ht
  unfold tokenizeWithWeights at ht
  rcases List.mem_map.mp ht with ⟨tok, _, rfl⟩
  exact getTokenWeight_nonneg tok

theorem exactStep_nonneg (uts : List TokenWeight) (acc : SimAcc) (pt : TokenWeight)
    (hpt : 0 ≤ pt.weight) (h1 : 0 ≤ acc.total) (h2 : 0 ≤ acc.matched) :
    0 ≤ (exactStep uts acc pt).total ∧ 0 ≤ (exactStep uts acc pt).matched := by
  unfold exactStep
  rcases hf : uts.find? (fun ut => ut.token == pt.token) with _ | ut <;> simp only [hf]
  · exact ⟨add_nonneg h1 hpt, h2⟩
  · exact ⟨add_nonneg h1 hpt, add_nonneg h2 (le_trans hpt (le_max_left _ _))⟩

theorem exactPass_go_nonneg (uts : List TokenWeight) :
    ∀ (pts : List TokenWeight), (∀ t ∈ pts, 0 ≤ t.weight) →
    ∀ acc : SimAcc, 0 ≤ acc.total → 0 ≤ acc.matched →
      0 ≤ (pts.foldl (exactStep uts) acc).total
      ∧ 0 ≤ (pts.foldl (exactStep uts) acc).matched := by
  intro pts
  induction pts with
  | nil => exact fun _ acc h1 h2 => ⟨h1, h2⟩
  | cons pt rest ih =>
    intro hp acc h1 h2
    rw [List.foldl_cons]
    have hstep := exactStep_nonneg uts acc pt (hp pt (List.mem_cons_self pt rest)) h1 h2
    exact ih (fun t ht => hp t (List.mem_cons_of_mem _ ht)) _ hstep.1 hstep.2

theorem fuzzyStep_nonneg (s : MatchingService) (uts : List TokenWeight) (exacts : List String)
    (acc : SimAcc) (pt : TokenWeight)
    (hpt : 0 ≤ pt.weight) (h1 : 0 ≤ acc.total) (h2 : 0 ≤ acc.matched) :
    0 ≤ (fuzzyStep s uts exacts acc pt).total ∧ 0 ≤ (fuzzyStep s uts exacts acc pt).matched := by
  unfold fuzzyStep
  split
  · exact ⟨h1, h2⟩
  · rcases hf : uts.find? (fun ut => fuzzyTokenMatch pt.token ut.token s.fuzzyEditDistance)
      with _ | ut <;> simp only [hf]
    · exact ⟨h1, h2⟩
    · refine ⟨h1, add_nonneg h2 (mul_nonneg (le_trans hpt (le_max_left _ _)) ?_)⟩
      decide

theorem fuzzyPass_go_nonneg (s : MatchingService) (uts : List TokenWeight)
    (exacts : List String) :
    ∀ (pts : List TokenWeight), (∀ t ∈ pts, 0 ≤ t.weight) →
    ∀ acc : SimAcc, 0 ≤ acc.total → 0 ≤ acc.matched →
      0 ≤ (pts.foldl (fuzzyStep s uts exacts) acc).total
      ∧ 0 ≤ (pts.foldl (fuzzyStep s uts exacts) acc).matched := by
  intro pts
  induction pts with
  | nil => exact fun _ acc h1 h2 => ⟨h1, h2⟩
  | cons pt rest ih =>
    intro hp acc h1 h2
    rw [List.foldl_cons]
    have hstep := fuzzyStep_nonneg s uts exacts acc pt (hp pt (List.mem_cons_self pt rest)) h1 h2
    exact ih (fun t ht => hp t (List.mem_cons_of_mem _ ht)) _ hstep.1 hstep.2

theorem calculateWeightedSimilarity_nonneg (s : MatchingService)
    (pts uts : List TokenWeight)
    (hp : ∀ t ∈ pts, 0 ≤ t.weight) (_hu : ∀ t ∈ uts, 0 ≤ t.weight) :
    0 ≤ (calculateWeightedSimilarity s pts uts).1 := by
  have hacc1 : 0 ≤ (exactPass pts uts).total ∧ 0 ≤ (exactPass pts uts).matched :=
    exactPass_go_nonneg uts pts hp
      { total := 0, matched := 0, toks := [], exacts := [] } (le_refl 0) (le_refl 0)
  simp only [calculateWeightedSimilarity]
  cases hfz : s.enableFuzzyMatching with
  | false =>
    simp only [hfz, Bool.false_eq_true, if_false]
    split
    · exact le_refl 0
    · exact mul_nonneg (div_nonneg hacc1.2 hacc1.1) (by decide)
  | true =>
    simp only [hfz, if_true]
    have hacc2 : 0 ≤ (fuzzyPass s pts uts (exactPass pts uts)).total
        ∧ 0 ≤ (fuzzyPass s pts uts (exactPass pts uts)).matched :=
      fuzzyPass_go_nonneg s uts (exactPass pts uts).exacts pts hp
        (exactPass pts uts) hacc1.1 hacc1.2
    split
    · exact le_refl 0
    · exact mul_nonneg (div_nonneg hacc2.2 hacc2.1) (by decide)

theorem dataTypeBonusOf_nonneg (dataType : String) : 0 ≤ dataTypeBonusOf dataType := by
  unfold dataTypeBonusOf
  split
  · decide
  · split
    · decide
    · split
      · decide
      · decide

theorem applyBonuses_nonneg (base : ℚ) (brand usdaDesc productName dataType : String)
    (hb : 0 ≤ base) : 0 ≤ applyBonuses base brand usdaDesc productName dataType := by
  have h25 : (0 : ℚ) ≤ brandMatchBonus := by decide
  have h10 : (0 : ℚ) ≤ substringMatchBonus := by decide
  have hdt := dataTypeBonusOf_nonneg dataType
  have h1 : 0 ≤ brandBonused base brand usdaDesc := by
    unfold brandBonused
    split
    · linarith
    · exact hb
  simp only [applyBonuses]
  split <;> split <;> linarith

theorem scoreOf_nonneg (s : MatchingService) (req : SearchRequest) (f : USDAFood) :
    0 ≤ scoreOf s req f := by
  have hsim := calculateWeightedSimilarity_nonneg s
    (tokenizeWithWeights req.productName) (tokenizeWithWeights f.description)
    (tokenizeWithWeights_nonneg _) (tokenizeWithWeights_nonneg _)
  have happ := applyBonuses_nonneg _ req.brand f.description req.productName f.dataType hsim
  simp only [scoreOf, calculateMatchScore]
  split
  · exact le_refl 0
  · split
    · exact (by decide : (0 : ℚ) ≤ 100)
    · exact happ

theorem bestFold_go_spec (s : MatchingService) (req : SearchRequest) :
    ∀ (l : List USDAFood) (acc : Option MatchResult × ℚ),
      (l.foldl (bestStep s req) acc = acc ∧ ∀ f ∈ l, scoreOf s req f ≤ acc.2)
      ∨ (∃ i, ∃ hi : i < l.length,
          l.foldl (bestStep s req) acc
            = (some (resultFor s req (l.get ⟨i, hi⟩)), scoreOf s req (l.get ⟨i, hi⟩))
          ∧ acc.2 < scoreOf s req (l.get ⟨i, hi⟩)
          ∧ (∀ j, ∀ hj : j < l.length, j < i →
              scoreOf s req (l.get ⟨j, hj⟩) < scoreOf s req (l.get ⟨i, hi⟩))
          ∧ (∀ j, ∀ hj : j < l.length,
              scoreOf s req (l.get ⟨j, hj⟩) ≤ scoreOf s req (l.get ⟨i, hi⟩))) := by
  intro l
  induction l with
  | nil =>
    intro acc
    left
    exact ⟨rfl, by simp⟩
  | cons f rest ih =>
    intro acc
    rw [List.foldl_cons]
    by_cases hf : scoreOf s req f > acc.2
    · have hstep : bestStep s req acc f = (some (resultFor s req f), scoreOf s req f) := by
        unfold bestStep
        rw [if_pos hf]
      rw [hstep]
      rcases ih (some (resultFor s req f), scoreOf s req f) with
        ⟨heq, hall⟩ | ⟨i, hi, heq, hgt, hfirst, hmax⟩
      · right
        refine ⟨0, Nat.succ_pos _, ?_, hf, ?_, ?_⟩
        · exact heq
        · intro j hj hj0
          exact absurd hj0 (Nat.not_lt_zero j)
        · intro j hj
          cases j with
          | zero => exact le_refl _
          | succ j2 =>
            exact hall (rest.get ⟨j2, Nat.lt_of_succ_lt_succ hj⟩)
              (List.get_mem rest _ _)
      · right
        refine ⟨i + 1, Nat.succ_lt_succ hi, heq, lt_trans hf hgt, ?_, ?_⟩
        · intro j hj hji
          cases j with
          | zero => exact hgt
          | succ j2 => exact hfirst j2 (Nat.lt_of_succ_lt_succ hj) (Nat.lt_of_succ_lt_succ hji)
        · intro j hj
          cases j with
          | zero => exact le_of_lt hgt
          | succ j2 => exact hmax j2 (Nat.lt_of_succ_lt_succ hj)
    · have hstep : bestStep s req acc f = acc := by
        unfold bestStep
        rw [if_neg hf]
      rw [hstep]
      have hfle : scoreOf s req f ≤ acc.2 := not_lt.mp hf
      rcases ih acc with ⟨heq, hall⟩ | ⟨i, hi, heq, hgt, hfirst, hmax⟩
      · left
        refine ⟨heq, ?_⟩
        intro f2 hf2
        rcases List.mem_cons.mp hf2 with rfl | hmem
        · exact hfle
        · exact hall f2 hmem
      · right
        refine ⟨i + 1, Nat.succ_lt_succ hi, heq, hgt, ?_, ?_⟩
        · intro j hj hji
          cases j with
          | zero => exact lt_of_le_of_lt hfle hgt
          | succ j2 => exact hfirst j2 (Nat.lt_of_succ_lt_succ hj) (Nat.lt_of_succ_lt_succ hji)
        · intro j hj
          cases j with
          | zero => exact le_of_lt (lt_of_le_of_lt hfle hgt)
          | succ j2 => exact hmax j2 (Nat.lt_of_succ_lt_succ hj)

theorem findBestMatch_valid (s : MatchingService) (req : SearchRequest)
    (foods : List USDAFood) (hname : req.productName ≠ "") (hne : foods ≠ []) :
    ∃ i, ∃ hi : i < foods.length,
      FindBestMatch s (some req) foods
        = (some (resultFor s req (foods.get ⟨i, hi⟩)),
           if scoreOf s req (foods.get ⟨i, hi⟩) < s.minConfidenceThreshold
           then some .lowConfidence else none)
      ∧ (∀ j, ∀ hj : j < foods.length,
          scoreOf s req (foods.get ⟨j, hj⟩) ≤ scoreOf s req (foods.get ⟨i, hi⟩))
      ∧ (∀ j, ∀ hj : j < foods.length, j < i →
          scoreOf s req (foods.get ⟨j, hj⟩) < scoreOf s req (foods.get ⟨i, hi⟩)) := by
  rcases bestFold_go_spec s req foods (none, -1) with ⟨heq, hall⟩ | ⟨i, hi, heq, hgt, hfirst, hmax⟩
  · exfalso
    rcases hh : foods with _ | ⟨f0, rest⟩
    · exact hne hh
    · have h0 := hall f0 (hh ▸ List.mem_cons_self f0 rest)
      have hn := scoreOf_nonneg s req f0
      have h0b : scoreOf s req f0 ≤ -1 := h0
      linarith
  · refine ⟨i, hi, ?_, hmax, hfirst⟩
    unfold FindBestMatch
    have hne2 : foods.isEmpty = false := isEmpty_false_of_ne_nil foods hne
    have hbf : bestFold s req foods
        = (some (resultFor s req (foods.get ⟨i, hi⟩)), scoreOf s req (foods.get ⟨i, hi⟩)) := heq
    simp only [hname, hne2, if_false, Bool.false_eq_true, hbf]
    have hms : (resultFor s req (foods.get ⟨i, hi⟩)).matchScore
        = scoreOf s req (foods.get ⟨i, hi⟩) := rfl
    by_cases hth : scoreOf s req (foods.get ⟨i, hi⟩) < s.minConfidenceThreshold
    · rw [if_pos (hms ▸ hth), if_pos hth]
    · rw [if_neg (hms ▸ hth), if_neg hth]

/-! ## C1: FindBestMatch returns the first maximal candidate and flags
low confidence -/

/-- Claim C1: for every non-nil request with non-empty product name and
every non-empty candidate list (with a non-cancelled context, which the
model assumes), `FindBestMatch` returns the `MatchResult` of the candidate
with the maximal score, ties resolved in favour of the first candidate in
list order, and the error is `LowConfidence` exactly when that maximal
score is strictly below the configured threshold — the `MatchResult` is
returned alongside the error in that case and the error is nil
otherwise; the threshold defaults to 40 when the config value is ≤ 0. -/
theorem C1_findBestMatch_argmax (config : MatchConfig) (req : SearchRequest)
    (foods : List USDAFood) (hname : req.productName ≠ "") (hne : foods ≠ []) :
    (∃ i, ∃ hi : i < foods.length,
      FindBestMatch (NewMatchingService config) (some req) foods
        = (some (resultFor (NewMatchingService config) req (foods.get ⟨i, hi⟩)),
           if scoreOf (NewMatchingService config) req (foods.get ⟨i, hi⟩)
               < (NewMatchingService config).minConfidenceThreshold
           then some .lowConfidence else none)
      ∧ (∀ j, ∀ hj : j < foods.length,
          scoreOf (NewMatchingService config) req (foods.get ⟨j, hj⟩)
            ≤ scoreOf (NewMatchingService config) req (foods.get ⟨i, hi⟩))
      ∧ (∀ j, ∀ hj : j < foods.length, j < i →
          scoreOf (NewMatchingService config) req (foods.get ⟨j, hj⟩)
            < scoreOf (NewMatchingService config) req (foods.get ⟨i, hi⟩)))
    ∧ (config.minConfidenceThreshold ≤ 0 →
        (NewMatchingService config).minConfidenceThreshold = 40) := by
  constructor
  · exact findBestMatch_valid (NewMatchingService config) req foods hname hne
  · intro h
    unfold NewMatchingService
    simp [h]

/-- Witness for C1 at a concrete request and a single candidate. -/
theorem C1_witness :
    (∃ i, ∃ hi : i <
        [({ fdcID := 1, description := "milk", dataType := "", nutrients := [] } :
          USDAFood)].length,
      FindBestMatch
          (NewMatchingService
            { minConfidenceThreshold := 0, enableFuzzyMatching := false,
              fuzzyEditDistance := 0 })
          (some { productName := "milk", brand := "", size := "" })
          [{ fdcID := 1, description := "milk", dataType := "", nutrients := [] }]
        = (some (resultFor
            (NewMatchingService
              { minConfidenceThreshold := 0, enableFuzzyMatching := false,
                fuzzyEditDistance := 0 })
            { productName := "milk", brand := "", size := "" }
            ([({ fdcID := 1, description := "milk", dataType := "", nutrients := [] } :
              USDAFood)].get ⟨i, hi⟩)),
           if scoreOf
               (NewMatchingService
                 { minConfidenceThreshold := 0, enableFuzzyMatching := false,
                   fuzzyEditDistance := 0 })
               { productName := "milk", brand := "", size := "" }
               ([({ fdcID := 1, description := "milk", dataType := "", nutrients := [] } :
                 USDAFood)].get ⟨i, hi⟩)
               < (NewMatchingService
                   { minConfidenceThreshold := 0, enableFuzzyMatching := false,
                     fuzzyEditDistance := 0 }).minConfidenceThreshold
           then some .lowConfidence else none)
      ∧ (∀ j, ∀ hj : j <
            [({ fdcID := 1, description := "milk", dataType := "", nutrients := [] } :
              USDAFood)].length,
          scoreOf
              (NewMatchingService
                { minConfidenceThreshold := 0, enableFuzzyMatching := false,
                  fuzzyEditDistance := 0 })
              { productName := "milk", brand := "", size := "" }
              ([({ fdcID := 1, description := "milk", dataType := "", nutrients := [] } :
                USDAFood)].get ⟨j, hj⟩)
            ≤ scoreOf
                (NewMatchingService
                  { minConfidenceThreshold := 0, enableFuzzyMatching := false,
                    fuzzyEditDistance := 0 })
                { productName := "milk", brand := "", size := "" }
                ([({ fdcID := 1, description := "milk", dataType := "", nutrients := [] } :
                  USDAFood)].get ⟨i, hi⟩))
      ∧ (∀ j, ∀ hj : j <
            [({ fdcID := 1, description := "milk", dataType := "", nutrients := [] } :
              USDAFood)].length, j < i →
          scoreOf
              (NewMatchingService
                { minConfidenceThreshold := 0, enableFuzzyMatching := false,
                  fuzzyEditDistance := 0 })
              { productName := "milk", brand := "", size := "" }
              ([({ fdcID := 1, description := "milk", dataType := "", nutrients := [] } :
                USDAFood)].get ⟨j, hj⟩)
            < scoreOf
                (NewMatchingService
                  { minConfidenceThreshold := 0, enableFuzzyMatching := false,
                    fuzzyEditDistance := 0 })
                { productName := "milk", brand := "", size := "" }
                ([({ fdcID := 1, description := "milk", dataType := "", nutrients := [] } :
                  USDAFood)].get ⟨i, hi⟩)))
    ∧ ((0 : ℚ) ≤ 0 →
        (NewMatchingService
          { minConfidenceThreshold := 0, enableFuzzyMatching := false,
            fuzzyEditDistance := 0 }).minConfidenceThreshold = 40) :=
  C1_findBestMatch_argmax
    { minConfidenceThreshold := 0, enableFuzzyMatching := false, fuzzyEditDistance := 0 }
    { productName := "milk", brand := "", size := "" }
    [{ fdcID := 1, description := "milk", dataType := "", nutrients := [] }]
    (by decide) (by decide)

/-! ## C2: the low-confidence path of SearchNutrition -/

/-- Claim C2: whenever the lookup misses the cache, the search succeeds
with a non-empty candidate list, and the matching step flags
`LowConfidence`, `SearchNutrition` returns non-nil mapped nutrition data
together with the `LowConfidence` error and performs no cache write. -/
theorem C2_lowConfidence_path (config : NutritionServiceConfig)
    (cacheGet : String → Except DomainError CacheValue)
    (searchClient : String → Except DomainError (List USDAFood))
    (removeSizePatterns : String → String) (now : Nat)
    (req : SearchRequest) (foods : List USDAFood)
    (hname : req.productName ≠ "")
    (hcache : ∃ e, getFromCache cacheGet (generateCacheKey req) = .error e)
    (hsearch : searchClient (PreprocessQuery removeSizePatterns req.productName req.brand)
        = .ok foods)
    (hne : foods ≠ [])
    (hlow : (FindBestMatch (NewNutritionService config).matchingService (some req) foods).2
        = some .lowConfidence) :
    (SearchNutrition (NewNutritionService config) cacheGet searchClient removeSizePatterns
        now (some req)).data.isSome = true
    ∧ (SearchNutrition (NewNutritionService config) cacheGet searchClient removeSizePatterns
        now (some req)).err = some .lowConfidence
    ∧ (SearchNutrition (NewNutritionService config) cacheGet searchClient removeSizePatterns
        now (some req)).setCalls = [] := by
  obtain ⟨i, hi, heqFB, hmax, hfirst⟩ :=
    findBestMatch_valid (NewNutritionService config).matchingService req foods hname hne
  have hcond : scoreOf (NewNutritionService config).matchingService req (foods.get ⟨i, hi⟩)
      < (NewNutritionService config).matchingService.minConfidenceThreshold := by
    by_cases hc : scoreOf (NewNutritionService config).matchingService req (foods.get ⟨i, hi⟩)
        < (NewNutritionService config).matchingService.minConfidenceThreshold
    · exact hc
    · rw [heqFB] at hlow
      simp only [if_neg hc] at hlow
      cases hlow
  rw [if_pos hcond] at heqFB
  rcases hcache with ⟨e, hhe⟩
  have hne2 : foods.isEmpty = false := isEmpty_false_of_ne_nil foods hne
  have hdata : (mapMatchToNutrition foods
      (resultFor (NewNutritionService config).matchingService req (foods.get ⟨i, hi⟩))).isSome
      = true := by
    unfold mapMatchToNutrition
    have hfind : (foods.find? (fun food => toString food.fdcID ==
        (resultFor (NewNutritionService config).matchingService req
          (foods.get ⟨i, hi⟩)).fdcId)).isSome = true := by
      rw [List.find?_isSome]
      refine ⟨foods.get ⟨i, hi⟩, List.get_mem foods i hi, ?_⟩
      show (toString (foods.get ⟨i, hi⟩).fdcID == toString (foods.get ⟨i, hi⟩).fdcID) = true
      exact beq_self_eq_true _
    rcases Option.isSome_iff_exists.mp hfind with ⟨x, hx⟩
    rw [hx]
    rfl
  simp only [SearchNutrition, hname, if_false, hhe, hsearch, hne2, Bool.false_eq_true,
    heqFB]
  simp only [Option.isSome_some, if_pos, and_true, if_true, true_and]
  exact hdata

/-- Witness for C2: the spec's scenario — `"chocolate cake"` against the
single candidate `"Grilled Chicken Breast"` with threshold 80 returns
`LowConfidence` with data present and no cache write. -/
theorem C2_witness :
    (SearchNutrition
        (NewNutritionService
          { cacheTTL := 0, minConfidenceThreshold := 80, enableFuzzyMatching := false })
        (fun _ => .error .cacheMiss)
        (fun _ => .ok [{ fdcID := 789, description := "Grilled Chicken Breast", dataType := ""
                         nutrients := [{ nutrientID := 1008, value := 165 }] }])
        id 0
        (some { productName := "chocolate cake", brand := "", size := "" })).data.isSome = true
    ∧ (SearchNutrition
        (NewNutritionService
          { cacheTTL := 0, minConfidenceThreshold := 80, enableFuzzyMatching := false })
        (fun _ => .error .cacheMiss)
        (fun _ => .ok [{ fdcID := 789, description := "Grilled Chicken Breast", dataType := ""
                         nutrients := [{ nutrientID := 1008, value := 165 }] }])
        id 0
        (some { productName := "chocolate cake", brand := "", size := "" })).err
      = some .lowConfidence
    ∧ (SearchNutrition
        (NewNutritionService
          { cacheTTL := 0, minConfidenceThreshold := 80, enableFuzzyMatching := false })
        (fun _ => .error .cacheMiss)
        (fun _ => .ok [{ fdcID := 789, description := "Grilled Chicken Breast", dataType := ""
                         nutrients := [{ nutrientID := 1008, value := 165 }] }])
        id 0
        (some { productName := "chocolate cake", brand := "", size := "" })).setCalls = [] :=
  C2_lowConfidence_path
    { cacheTTL := 0, minConfidenceThreshold := 80, enableFuzzyMatching := false }
    (fun _ => .error .cacheMiss)
    (fun _ => .ok [{ fdcID := 789, description := "Grilled Chicken Breast", dataType := ""
                     nutrients := [{ nutrientID := 1008, value := 165 }] }])
    id 0
    { productName := "chocolate cake", brand := "", size := "" }
    [{ fdcID := 789, description := "Grilled Chicken Breast", dataType := ""
       nutrients := [{ nutrientID := 1008, value := 165 }] }]
    (by decide) ⟨.cacheMiss, rfl⟩ rfl (by decide) (by decide)

/-! ## C3: the USDA client retry loop -/

theorem attemptStep_404 (ng : Bool) (p : Option (List USDAFood)) :
    attemptStep (.httpResp 404 ng p) = .finish .errNotFound := by
  unfold attemptStep
  simp [retryableStatus]

theorem attemptStep_plain (s : Nat) (ng : Bool) (p : Option (List USDAFood))
    (h200 : s ≠ 200) (h404 : s ≠ 404)
    (hnr : ¬(500 ≤ s ∨ s = 429 ∨ (s = 400 ∧ ng = true))) :
    attemptStep (.httpResp s ng p) = .finish (.errAPIStatus s) := by
  unfold attemptStep
  have hr : retryableStatus s ng = false := by
    unfold retryableStatus
    push_neg at hnr
    rcases hnr with ⟨hn1, hn2, hn3⟩
    have b1 : decide (500 ≤ s) = false := decide_eq_false (by omega)
    have b2 : decide (s = 429) = false := decide_eq_false hn2
    rw [b1, b2]
    by_cases h400 : s = 400
    · have hng : ng = false := by
        rcases Bool.eq_false_or_eq_true ng with h | h
        · exact absurd h (hn3 h400)
        · exact h
      simp [hng]
    · have b3 : decide (s = 400) = false := decide_eq_false h400
      simp [b3]
  simp [h200, h404, hr]

theorem isRetryStep_httpResp (s : Nat) (ng : Bool) (p : Option (List USDAFood)) :
    isRetryStep (.httpResp s ng p) = true
      ↔ (s ≠ 200 ∧ s ≠ 404 ∧ (500 ≤ s ∨ s = 429 ∨ (s = 400 ∧ ng = true))) := by
  unfold isRetryStep attemptStep
  by_cases h200 : s = 200
  · subst h200
    cases p with
    | none => simp
    | some foods =>
      by_cases he : foods.isEmpty <;> simp [he]
  · by_cases h404 : s = 404
    · subst h404
      simp [retryableStatus]
    · by_cases hr : retryableStatus s ng = true
      · have hprop : 500 ≤ s ∨ s = 429 ∨ (s = 400 ∧ ng = true) := by
          unfold retryableStatus at hr
          simp only [Bool.or_eq_true, Bool.and_eq_true, decide_eq_true_iff] at hr
          tauto
        simp [h200, h404, hr, hprop]
      · have hprop : ¬(500 ≤ s ∨ s = 429 ∨ (s = 400 ∧ ng = true)) := by
          unfold retryableStatus at hr
          intro hcon
          apply hr
          rcases hcon with h | h | ⟨h1, h2⟩
          · simp [h]
          · simp [h]
          · simp [h1, h2]
        simp [h200, h404, hr, hprop]

theorem searchFoods_eq_one (responses : Nat → AttemptOutcome) (r : ClientResult)
    (h : attemptStep (responses 1) = .finish r) :
    SearchFoods responses = { result := r, attempts := 1, sleepsMs := [] } := by
  unfold SearchFoods
  rw [h]

theorem searchFoods_eq_two (responses : Nat → AttemptOutcome) (e1 : ClientResult)
    (r : ClientResult)
    (h1 : attemptStep (responses 1) = .retry e1) (h2 : attemptStep (responses 2) = .finish r) :
    SearchFoods responses
      = { result := r, attempts := 2, sleepsMs := [exponentialBackoff 1] } := by
  unfold SearchFoods
  rw [h1, h2]

theorem searchFoods_eq_three (responses : Nat → AttemptOutcome) (e1 e2 : ClientResult)
    (r : ClientResult)
    (h1 : attemptStep (responses 1) = .retry e1) (h2 : attemptStep (responses 2) = .retry e2)
    (h3 : attemptStep (responses 3) = .finish r) :
    SearchFoods responses
      = { result := r, attempts := 3
          sleepsMs := [exponentialBackoff 1, exponentialBackoff 2] } := by
  unfold SearchFoods
  rw [h1, h2, h3]

theorem searchFoods_eq_exhausted (responses : Nat → AttemptOutcome) (e1 e2 e3 : ClientResult)
    (h1 : attemptStep (responses 1) = .retry e1) (h2 : attemptStep (responses 2) = .retry e2)
    (h3 : attemptStep (responses 3) = .retry e3) :
    SearchFoods responses
      = { result := e3, attempts := 3
          sleepsMs := [exponentialBackoff 1, exponentialBackoff 2, exponentialBackoff 3] } := by
  unfold SearchFoods
  rw [h1, h2, h3]

/-- Claim C3: the `SearchFoods` retry loop makes at most 3 attempts; a
further attempt happens exactly when the previous one was retryable, and
for HTTP responses retryable means 5xx, 429, or a 400 whose body carries
the nginx transient-proxy marker; any other non-200 status outside
404 fails permanently the moment it is seen (in particular a plain 400 on
the first attempt means exactly 1 attempt and no sleep); a 404 at any
reached attempt short-circuits to the NotFound error; and the sleeps
performed are exponential: 500ms after attempt 1, 1000ms after attempt 2,
2000ms after attempt 3. -/
theorem C3_searchFoods_retry_policy (responses : Nat → AttemptOutcome) :
    (SearchFoods responses).attempts ≤ 3
    ∧ (2 ≤ (SearchFoods responses).attempts ↔ isRetryStep (responses 1) = true)
    ∧ ((SearchFoods responses).attempts = 3
        ↔ isRetryStep (responses 1) = true ∧ isRetryStep (responses 2) = true)
    ∧ (∀ s ng p, isRetryStep (.httpResp s ng p) = true
        ↔ (s ≠ 200 ∧ s ≠ 404 ∧ (500 ≤ s ∨ s = 429 ∨ (s = 400 ∧ ng = true))))
    ∧ (∀ s ng p, responses 1 = .httpResp s ng p → s ≠ 200 → s ≠ 404 →
        ¬(500 ≤ s ∨ s = 429 ∨ (s = 400 ∧ ng = true)) →
        SearchFoods responses = { result := .errAPIStatus s, attempts := 1, sleepsMs := [] })
    ∧ (∀ ng p, responses 1 = .httpResp 404 ng p →
        SearchFoods responses = { result := .errNotFound, attempts := 1, sleepsMs := [] })
    ∧ (∀ ng p, responses (SearchFoods responses).attempts = .httpResp 404 ng p →
        (SearchFoods responses).result = .errNotFound)
    ∧ (∃ k, k ≤ 3 ∧ (SearchFoods responses).sleepsMs
        = (List.range k).map (fun i => exponentialBackoff (i + 1)))
    ∧ exponentialBackoff 1 = 500 ∧ exponentialBackoff 2 = 1000
    ∧ exponentialBackoff 3 = 2000 := by
  have hretry : ∀ n (e : ClientResult), attemptStep (responses n) = .retry e →
      isRetryStep (responses n) = true := by
    intro n e h
    unfold isRetryStep
    rw [h]
  have hfin : ∀ n (r : ClientResult), attemptStep (responses n) = .finish r →
      isRetryStep (responses n) = false := by
    intro n r h
    unfold isRetryStep
    rw [h]
  rcases h1 : attemptStep (responses 1) with r1 | e1
  · -- attempt 1 finishes
    have heq := searchFoods_eq_one responses r1 h1
    rw [heq]
    refine ⟨by simp, ?_, ?_, isRetryStep_httpResp, ?_, ?_, ?_, ⟨0, by decide, rfl⟩,
      rfl, rfl, rfl⟩
    · simp [hfin 1 r1 h1]
    · simp [hfin 1 r1 h1]
    · intro s ng p hresp h200 h404 hnr
      rw [hresp, attemptStep_plain s ng p h200 h404 hnr] at h1
      cases h1
      rfl
    · intro ng p hresp
      rw [hresp, attemptStep_404 ng p] at h1
      cases h1
      rfl
    · intro ng p hresp
      simp only at hresp
      rw [hresp, attemptStep_404 ng p] at h1
      cases h1
      rfl
  · rcases h2 : attemptStep (responses 2) with r2 | e2
    · -- attempt 2 finishes
      have heq := searchFoods_eq_two responses e1 r2 h1 h2
      rw [heq]
      refine ⟨by simp, ?_, ?_, isRetryStep_httpResp, ?_, ?_, ?_,
        ⟨1, by decide, rfl⟩, rfl, rfl, rfl⟩
      · simp [hretry 1 e1 h1]
      · simp [hfin 2 r2 h2]
      · intro s ng p hresp h200 h404 hnr
        rw [hresp, attemptStep_plain s ng p h200 h404 hnr] at h1
        cases h1
      · intro ng p hresp
        rw [hresp, attemptStep_404 ng p] at h1
        cases h1
      · intro ng p hresp
        simp only at hresp
        rw [hresp, attemptStep_404 ng p] at h2
        cases h2
        rfl
    · rcases h3 : attemptStep (responses 3) with r3 | e3
      · -- attempt 3 finishes
        have heq := searchFoods_eq_three responses e1 e2 r3 h1 h2 h3
        rw [heq]
        refine ⟨by simp, ?_, ?_, isRetryStep_httpResp, ?_, ?_, ?_,
          ⟨2, by decide, rfl⟩, rfl, rfl, rfl⟩
        · simp [hretry 1 e1 h1]
        · simp [hretry 1 e1 h1, hretry 2 e2 h2]
        · intro s ng p hresp h200 h404 hnr
          rw [hresp, attemptStep_plain s ng p h200 h404 hnr] at h1
          cases h1
        · intro ng p hresp
          rw [hresp, attemptStep_404 ng p] at h1
          cases h1
        · intro ng p hresp
          simp only at hresp
          rw [hresp, attemptStep_404 ng p] at h3
          cases h3
          rfl
      · -- all three attempts retried
        have heq := searchFoods_eq_exhausted responses e1 e2 e3 h1 h2 h3
        rw [heq]
        refine ⟨by simp, ?_, ?_, isRetryStep_httpResp, ?_, ?_, ?_,
          ⟨3, by decide, rfl⟩, rfl, rfl, rfl⟩
        · simp [hretry 1 e1 h1]
        · simp [hretry 1 e1 h1, hretry 2 e2 h2]
        · intro s ng p hresp h200 h404 hnr
          rw [hresp, attemptStep_plain s ng p h200 h404 hnr] at h1
          cases h1
        · intro ng p hresp
          rw [hresp, attemptStep_404 ng p] at h1
          cases h1
        · intro ng p hresp
          simp only at hresp
          rw [hresp, attemptStep_404 ng p] at h3
          cases h3

/-- Witness for C3: a plain HTTP 400 on every attempt fails after exactly
one attempt with no sleeps, and the attempt bound holds. -/
theorem C3_witness :
    SearchFoods (fun _ => .httpResp 400 false none)
      = { result := .errAPIStatus 400, attempts := 1, sleepsMs := [] }
    ∧ (SearchFoods (fun _ => .httpResp 400 false none)).attempts ≤ 3 :=
  ⟨(C3_searchFoods_retry_policy (fun _ => .httpResp 400 false none)).2.2.2.2.1
      400 false none rfl (by decide) (by decide) (by decide),
   (C3_searchFoods_retry_policy (fun _ => .httpResp 400 false none)).1⟩

/-! ## C9: idempotence of the cache-key normalization -/

theorem regexSpace_unicode (c : Char) (h : isRegexSpace c = true) : isUnicodeSpace c = true := by
  unfold isRegexSpace at h
  unfold isUnicodeSpace
  rw [decide_eq_true_iff] at h ⊢
  omega

theorem regexSpace_of_unicode_false (c : Char) (h : isUnicodeSpace c = false) :
    isRegexSpace c = false := by
  cases hr : isRegexSpace c
  · rfl
  · rw [regexSpace_unicode c hr] at h
    cases h

theorem lowerAlnum_not_regexSpace (c : Char) (h : isLowerAlnum c = true) :
    isRegexSpace c = false := by
  unfold isLowerAlnum at h
  unfold isRegexSpace
  rw [decide_eq_true_iff] at h
  rw [decide_eq_false_iff_not]
  omega

theorem canon_keep (c : Char) (h : canonChar c) : keepChar c = true := by
  rcases h with h | rfl
  · unfold keepChar
    rw [h]
    rfl
  · decide

theorem canon_toLower_fix (c : Char) (h : canonChar c) : Char.toLower c = c := by
  rcases h with h | rfl
  · unfold isLowerAlnum at h
    rw [decide_eq_true_iff] at h
    exact toLower_eq_self_of_not_upper c (by omega)
  · decide

theorem map_fix_of_id {f : Char → Char} :
    ∀ (l : List Char), (∀ c ∈ l, f c = c) → l.map f = l := by
  intro l
  induction l with
  | nil => intro _; rfl
  | cons a l ih =>
    intro h
    rw [List.map_cons, h a (List.mem_cons_self a l),
      ih (fun c hc => h c (List.mem_cons_of_mem _ hc))]

theorem dropWhileHeadFalse (p : Char → Bool) :
    ∀ (l : List Char) (c : Char), (l.dropWhile p).head? = some c → p c = false := by
  intro l
  induction l with
  | nil => intro c h; cases h
  | cons a l ih =>
    intro c h
    rw [List.dropWhile_cons] at h
    by_cases hpa : p a = true
    · rw [if_pos hpa] at h
      exact ih c h
    · rw [if_neg hpa] at h
      rw [List.head?_cons] at h
      injection h with hac
      subst hac
      exact Bool.not_eq_true _ ▸ hpa

theorem dropWhile_eq_self_of_head (p : Char → Bool) (l : List Char)
    (h : ∀ c, l.head? = some c → p c = false) : l.dropWhile p = l := by
  cases l with
  | nil => rfl
  | cons a l =>
    rw [List.dropWhile_cons, if_neg]
    rw [h a rfl]
    simp

theorem prefix_head_eq {l₁ l₂ : List Char} (h : l₁ <+: l₂) :
    ∀ c, l₁.head? = some c → l₂.head? = some c := by
  rcases h with ⟨t, rfl⟩
  intro c hc
  cases l₁ with
  | nil => cases hc
  | cons a l =>
    rw [List.head?_cons] at hc
    rw [List.cons_append, List.head?_cons]
    exact hc

theorem trimSpace_prefix_core (l : List Char) :
    trimSpace l <+: l.dropWhile isUnicodeSpace := by
  unfold trimSpace
  have hsuf : (l.dropWhile isUnicodeSpace).reverse.dropWhile isUnicodeSpace
      <:+ (l.dropWhile isUnicodeSpace).reverse := List.dropWhile_suffix _
  have hpre := List.reverse_prefix.mpr hsuf
  rwa [List.reverse_reverse] at hpre

theorem trimSpace_head (l : List Char) :
    ∀ c, (trimSpace l).head? = some c → isUnicodeSpace c = false := by
  intro c hc
  exact dropWhileHeadFalse _ l c (prefix_head_eq (trimSpace_prefix_core l) c hc)

theorem trimSpace_last (l : List Char) :
    ∀ c, (trimSpace l).getLast? = some c → isUnicodeSpace c = false := by
  intro c hc
  rw [List.getLast?_eq_head?_reverse] at hc
  have hrev : (trimSpace l).reverse
      = (l.dropWhile isUnicodeSpace).reverse.dropWhile isUnicodeSpace := by
    unfold trimSpace
    rw [List.reverse_reverse]
  rw [hrev] at hc
  exact dropWhileHeadFalse _ _ c hc

theorem trimSpace_subset (l : List Char) : ∀ c ∈ trimSpace l, c ∈ l := by
  intro c hc
  unfold trimSpace at hc
  rw [List.mem_reverse] at hc
  have h1 := (List.dropWhile_sublist _).subset hc
  rw [List.mem_reverse] at h1
  exact (List.dropWhile_sublist _).subset h1

theorem noAdj_symm_imp : ∀ a b : Char,
    ¬(isRegexSpace a = true ∧ isRegexSpace b = true)
    → ¬(isRegexSpace b = true ∧ isRegexSpace a = true) :=
  fun _ _ h hc => h ⟨hc.2, hc.1⟩

theorem trimSpace_noAdj (l : List Char) (h : noAdjWs l) : noAdjWs (trimSpace l) := by
  unfold noAdjWs at h ⊢
  unfold trimSpace
  have h1 := h.suffix (List.dropWhile_suffix isUnicodeSpace)
  have h1r := List.chain'_reverse.mpr (h1.imp noAdj_symm_imp)
  have h2 := h1r.suffix (List.dropWhile_suffix isUnicodeSpace)
  exact List.chain'_reverse.mpr (h2.imp noAdj_symm_imp)

theorem trimSpace_fix (l : List Char)
    (hh : ∀ c, l.head? = some c → isUnicodeSpace c = false)
    (hl : ∀ c, l.getLast? = some c → isUnicodeSpace c = false) : trimSpace l = l := by
  unfold trimSpace
  rw [dropWhile_eq_self_of_head _ l hh]
  rw [dropWhile_eq_self_of_head _ l.reverse
    (fun c hc => hl c (by rwa [List.head?_reverse] at hc))]
  exact List.reverse_reverse l

theorem collapseWsGo_cons (b : Bool) (a : Char) (l : List Char) :
    collapseWsGo b (a :: l)
      = if isRegexSpace a = true then
          (if b = true then collapseWsGo true l else ' ' :: collapseWsGo true l)
        else a :: collapseWsGo false l := by
  simp only [collapseWsGo]

theorem collapseWsGo_chars :
    ∀ (l : List Char) (b : Bool) (c : Char), c ∈ collapseWsGo b l →
      (c ∈ l ∧ isRegexSpace c = false) ∨ c = ' ' := by
  intro l
  induction l with
  | nil =>
    intro b c hc
    cases b <;> cases hc
  | cons a l ih =>
    intro b c hc
    by_cases hws : isRegexSpace a = true
    · cases b with
      | true =>
        have hc2 : c ∈ collapseWsGo true l := by
          rwa [collapseWsGo_cons, if_pos hws, if_pos rfl] at hc
        rcases ih true c hc2 with ⟨hm, hns⟩ | hsp
        · exact Or.inl ⟨List.mem_cons_of_mem _ hm, hns⟩
        · exact Or.inr hsp
      | false =>
        have hc2 : c ∈ ' ' :: collapseWsGo true l := by
          rwa [collapseWsGo_cons, if_pos hws, if_neg (by simp)] at hc
        rcases List.mem_cons.mp hc2 with rfl | hc3
        · exact Or.inr rfl
        · rcases ih true c hc3 with ⟨hm, hns⟩ | hsp
          · exact Or.inl ⟨List.mem_cons_of_mem _ hm, hns⟩
          · exact Or.inr hsp
    · have hc2 : c ∈ a :: collapseWsGo false l := by
        rwa [collapseWsGo_cons, if_neg hws] at hc
      rcases List.mem_cons.mp hc2 with rfl | hc3
      · exact Or.inl ⟨List.mem_cons_self _ _, Bool.not_eq_true _ ▸ hws⟩
      · rcases ih false c hc3 with ⟨hm, hns⟩ | hsp
        · exact Or.inl ⟨List.mem_cons_of_mem _ hm, hns⟩
        · exact Or.inr hsp

theorem collapseWsGo_head_true :
    ∀ (l : List Char) (c : Char), (collapseWsGo true l).head? = some c →
      isRegexSpace c = false := by
  intro l
  induction l with
  | nil => intro c h; cases h
  | cons a l ih =>
    intro c h
    by_cases hws : isRegexSpace a = true
    · have h2 : (collapseWsGo true l).head? = some c := by
        rwa [collapseWsGo_cons, if_pos hws, if_pos rfl] at h
      exact ih c h2
    · have h2 : (a :: collapseWsGo false l).head? = some c := by
        rwa [collapseWsGo_cons, if_neg hws] at h
      rw [List.head?_cons] at h2
      injection h2 with hac
      subst hac
      exact Bool.not_eq_true _ ▸ hws

theorem collapseWsGo_noAdj :
    ∀ l : List Char, noAdjWs (collapseWsGo false l) ∧ noAdjWs (collapseWsGo true l) := by
  intro l
  induction l with
  | nil => exact ⟨List.chain'_nil, List.chain'_nil⟩
  | cons a l ih =>
    by_cases hws : isRegexSpace a = true
    · have hfalse : collapseWsGo false (a :: l) = ' ' :: collapseWsGo true l := by
        rw [collapseWsGo_cons, if_pos hws, if_neg (by simp)]
      have htrue : collapseWsGo true (a :: l) = collapseWsGo true l := by
        rw [collapseWsGo_cons, if_pos hws, if_pos rfl]
      constructor
      · rw [hfalse]
        unfold noAdjWs
        rw [List.chain'_cons']
        refine ⟨?_, ih.2⟩
        intro y hy
        intro hcon
        have := collapseWsGo_head_true l y hy
        rw [hcon.2] at this
        cases this
      · rw [htrue]
        exact ih.2
    · have heq : ∀ b : Bool, collapseWsGo b (a :: l) = a :: collapseWsGo false l := by
        intro b
        rw [collapseWsGo_cons, if_neg hws]
      constructor <;>
        · rw [heq]
          unfold noAdjWs
          rw [List.chain'_cons']
          refine ⟨?_, ih.1⟩
          intro y _
          intro hcon
          exact hws hcon.1

theorem collapseWsGo_fix :
    ∀ l : List Char, (∀ c ∈ l, canonChar c) → noAdjWs l →
      (collapseWsGo false l = l ∧
        ((∀ c, l.head? = some c → isRegexSpace c = false) → collapseWsGo true l = l)) := by
  intro l
  induction l with
  | nil => exact fun _ _ => ⟨rfl, fun _ => rfl⟩
  | cons a l ih =>
    intro hcanon hadj
    have hcanonl : ∀ c ∈ l, canonChar c := fun c hc => hcanon c (List.mem_cons_of_mem _ hc)
    have hadjl : noAdjWs l := (List.chain'_cons'.mp hadj).2
    rcases hcanon a (List.mem_cons_self a l) with hla | hsp
    · -- a is a lower-case alphanumeric: not white space
      have hws : isRegexSpace a = false := lowerAlnum_not_regexSpace a hla
      have hws2 : ¬isRegexSpace a = true := by rw [hws]; simp
      have heq : ∀ b : Bool, collapseWsGo b (a :: l) = a :: collapseWsGo false l := by
        intro b
        rw [collapseWsGo_cons, if_neg hws2]
      have hfix := (ih hcanonl hadjl).1
      exact ⟨by rw [heq, hfix], fun _ => by rw [heq, hfix]⟩
    · -- a = ' '
      subst hsp
      have hws : isRegexSpace ' ' = true := by decide
      have hhead : ∀ c, l.head? = some c → isRegexSpace c = false := by
        intro c hc
        have := (List.chain'_cons'.mp hadj).1 c hc
        cases hrc : isRegexSpace c
        · rfl
        · exact absurd ⟨hws, hrc⟩ this
      have hfix := (ih hcanonl hadjl).2 hhead
      constructor
      · rw [collapseWsGo_cons, if_pos hws, if_neg (by simp), hfix]
      · intro hh
        have := hh ' ' rfl
        rw [hws] at this
        cases this

theorem canon_of_normalized (s : List Char) :
    ∀ c ∈ trimSpace (collapseWs ((s.map Char.toLower).filter keepChar)), canonChar c := by
  intro c hc
  have hc2 := trimSpace_subset _ c hc
  unfold collapseWs at hc2
  rcases collapseWsGo_chars _ false c hc2 with ⟨hm, hns⟩ | hsp
  · have hkeep := List.of_mem_filter hm
    unfold keepChar at hkeep
    rw [Bool.or_eq_true] at hkeep
    rcases hkeep with h | h
    · exact Or.inl h
    · rw [h] at hns
      cases hns
  · exact Or.inr hsp

theorem normalizeForCacheKey_eq (t : String) (h : t ≠ "") :
    normalizeForCacheKey t
      = String.mk (trimSpace (collapseWs ((t.data.map Char.toLower).filter keepChar))) := by
  unfold normalizeForCacheKey
  rw [if_neg h]

/-- Claim C9: `normalizeForCacheKey` is idempotent on every string. -/
theorem C9_normalize_idempotent (s : String) :
    normalizeForCacheKey (normalizeForCacheKey s) = normalizeForCacheKey s := by
  by_cases hs : s = ""
  · rw [hs]
    rfl
  · by_cases ht : normalizeForCacheKey s = ""
    · rw [ht]
      rfl
    · have htd : (normalizeForCacheKey s).data
          = trimSpace (collapseWs ((s.data.map Char.toLower).filter keepChar)) := by
        rw [normalizeForCacheKey_eq s hs]
      have hcanon : ∀ c ∈ (normalizeForCacheKey s).data, canonChar c := by
        rw [htd]
        exact canon_of_normalized s.data
      have hadj : noAdjWs (normalizeForCacheKey s).data := by
        rw [htd]
        exact trimSpace_noAdj _ (collapseWsGo_noAdj _).1
      have hhead : ∀ c, (normalizeForCacheKey s).data.head? = some c →
          isUnicodeSpace c = false := by
        rw [htd]
        exact trimSpace_head _
      have hlast : ∀ c, (normalizeForCacheKey s).data.getLast? = some c →
          isUnicodeSpace c = false := by
        rw [htd]
        exact trimSpace_last _
      have hmap : (normalizeForCacheKey s).data.map Char.toLower
          = (normalizeForCacheKey s).data :=
        map_fix_of_id _ (fun c hc => canon_toLower_fix c (hcanon c hc))
      have hfilter : (normalizeForCacheKey s).data.filter keepChar
          = (normalizeForCacheKey s).data :=
        List.filter_eq_self.mpr (fun c hc => canon_keep c (hcanon c hc))
      have hcollapse : collapseWs (normalizeForCacheKey s).data
          = (normalizeForCacheKey s).data :=
        (collapseWsGo_fix _ hcanon hadj).1
      have htrim : trimSpace (normalizeForCacheKey s).data
          = (normalizeForCacheKey s).data :=
        trimSpace_fix _ hhead hlast
      calc normalizeForCacheKey (normalizeForCacheKey s)
          = String.mk (trimSpace (collapseWs
              (((normalizeForCacheKey s).data.map Char.toLower).filter keepChar))) :=
            normalizeForCacheKey_eq _ ht
        _ = String.mk (normalizeForCacheKey s).data := by
            rw [hmap, hfilter]
            unfold collapseWs at hcollapse
            unfold collapseWs
            rw [hcollapse, htrim]
        _ = normalizeForCacheKey s := rfl

/-! ## C10: the preprocessor lowercases its output -/

theorem joinSpace_chars :
    ∀ (ws : List (List Char)) (c : Char), c ∈ joinSpace ws →
      (∃ w ∈ ws, c ∈ w) ∨ c = ' ' := by
  intro ws
  induction ws with
  | nil => intro c hc; cases hc
  | cons w rest ih =>
    intro c hc
    cases rest with
    | nil =>
      have hc2 : c ∈ w := hc
      exact Or.inl ⟨w, List.mem_cons_self w [], hc2⟩
    | cons v vs =>
      have hc2 : c ∈ w ++ ' ' :: joinSpace (v :: vs) := hc
      rcases List.mem_append.mp hc2 with hw | hrest
      · exact Or.inl ⟨w, List.mem_cons_self w _, hw⟩
      · rcases List.mem_cons.mp hrest with rfl | hjoin
        · exact Or.inr rfl
        · rcases ih c hjoin with ⟨w2, hw2, hcw2⟩ | hsp
          · exact Or.inl ⟨w2, List.mem_cons_of_mem _ hw2, hcw2⟩
          · exact Or.inr hsp

theorem fieldsGo_nil (cur : List Char) :
    fieldsGo cur [] = if cur.isEmpty = true then [] else [cur.reverse] := by
  simp only [fieldsGo]

theorem fieldsGo_cons (cur : List Char) (a : Char) (l : List Char) :
    fieldsGo cur (a :: l)
      = if isUnicodeSpace a = true then
          (if cur.isEmpty = true then fieldsGo [] l else cur.reverse :: fieldsGo [] l)
        else fieldsGo (a :: cur) l := by
  simp only [fieldsGo]

theorem fieldsGo_chars :
    ∀ (l cur : List Char) (w : List Char), w ∈ fieldsGo cur l →
      ∀ c ∈ w, c ∈ cur ∨ c ∈ l := by
  intro l
  induction l with
  | nil =>
    intro cur w hw c hc
    rw [fieldsGo_nil] at hw
    by_cases hcur : cur.isEmpty = true
    · rw [if_pos hcur] at hw
      cases hw
    · rw [if_neg hcur] at hw
      rcases List.mem_cons.mp hw with rfl | hcon
      · exact Or.inl (List.mem_reverse.mp hc)
      · cases hcon
  | cons a l ih =>
    intro cur w hw c hc
    rw [fieldsGo_cons] at hw
    by_cases hws : isUnicodeSpace a = true
    · rw [if_pos hws] at hw
      by_cases hcur : cur.isEmpty = true
      · rw [if_pos hcur] at hw
        rcases ih [] w hw c hc with hnil | hl
        · cases hnil
        · exact Or.inr (List.mem_cons_of_mem _ hl)
      · rw [if_neg hcur] at hw
        rcases List.mem_cons.mp hw with rfl | hw2
        · exact Or.inl (List.mem_reverse.mp hc)
        · rcases ih [] w hw2 c hc with hnil | hl
          · cases hnil
          · exact Or.inr (List.mem_cons_of_mem _ hl)
    · rw [if_neg hws] at hw
      rcases ih (a :: cur) w hw c hc with hcur2 | hl
      · rcases List.mem_cons.mp hcur2 with rfl | hcur3
        · exact Or.inr (List.mem_cons_self _ _)
        · exact Or.inl hcur3
      · exact Or.inr (List.mem_cons_of_mem _ hl)

theorem removeNoiseWords_notUpper (s : String) :
    ∀ c ∈ (removeNoiseWords s).data, notUpperChar c = true := by
  intro c hc
  have hc2 : c ∈ joinSpace
      ((fields (s.data.map Char.toLower)).filter
        (fun w => !queryNoiseWords.contains (String.mk (goTrim trimCutset w)))) := hc
  rcases joinSpace_chars _ c hc2 with ⟨w, hw, hcw⟩ | hsp
  · have hwf := List.mem_filter.mp hw
    rcases fieldsGo_chars _ [] w hwf.1 c hcw with hnil | hl
    · cases hnil
    · rcases List.mem_map.mp hl with ⟨c0, _, rfl⟩
      exact toLower_notUpper c0
  · rw [hsp]
    decide

theorem midOrphan_nil : midOrphan [] = [] := by
  simp only [midOrphan]

theorem midOrphan_cons (a : Char) (t : List Char) :
    midOrphan (a :: t)
      = if isRegexSpace a = true then
          (if (List.takeWhile isOrphanPunct (List.dropWhile isRegexSpace t)).isEmpty = true then
            a :: midOrphan t
          else if (List.takeWhile isRegexSpace
              (List.dropWhile isOrphanPunct (List.dropWhile isRegexSpace t))).isEmpty = true then
            a :: midOrphan t
          else ' ' :: midOrphan (List.dropWhile isRegexSpace
              (List.dropWhile isOrphanPunct (List.dropWhile isRegexSpace t))))
        else a :: midOrphan t := by
  simp only [midOrphan]

theorem midOrphan_chars_bounded :
    ∀ (n : Nat) (l : List Char), l.length ≤ n → ∀ c, c ∈ midOrphan l → c ∈ l ∨ c = ' ' := by
  intro n
  induction n with
  | zero =>
    intro l hl c hc
    cases l with
    | nil =>
      rw [midOrphan_nil] at hc
      cases hc
    | cons a t => simp at hl
  | succ n ihn =>
    intro l hl c hc
    cases l with
    | nil =>
      rw [midOrphan_nil] at hc
      cases hc
    | cons a t =>
      have hlt : t.length ≤ n := by
        simp only [List.length_cons] at hl
        omega
      rw [midOrphan_cons] at hc
      have hcons : c ∈ a :: midOrphan t → c ∈ a :: t ∨ c = ' ' := by
        intro hc2
        rcases List.mem_cons.mp hc2 with rfl | hc3
        · exact Or.inl (List.mem_cons_self _ _)
        · rcases ihn t hlt c hc3 with hm | hsp
          · exact Or.inl (List.mem_cons_of_mem _ hm)
          · exact Or.inr hsp
      by_cases h1 : isRegexSpace a = true
      · rw [if_pos h1] at hc
        by_cases h2 : (List.takeWhile isOrphanPunct
            (List.dropWhile isRegexSpace t)).isEmpty = true
        · rw [if_pos h2] at hc
          exact hcons hc
        · rw [if_neg h2] at hc
          by_cases h3 : (List.takeWhile isRegexSpace
              (List.dropWhile isOrphanPunct (List.dropWhile isRegexSpace t))).isEmpty = true
          · rw [if_pos h3] at hc
            exact hcons hc
          · rw [if_neg h3] at hc
            rcases List.mem_cons.mp hc with rfl | hc3
            · exact Or.inr rfl
            · have hsub : (List.dropWhile isRegexSpace
                  (List.dropWhile isOrphanPunct (List.dropWhile isRegexSpace t))).length
                  ≤ n := by
                have e1 : (List.dropWhile isRegexSpace
                    (List.dropWhile isOrphanPunct (List.dropWhile isRegexSpace t))).length
                    ≤ t.length :=
                  (((List.dropWhile_sublist _).trans
                    ((List.dropWhile_sublist _).trans
                      (List.dropWhile_sublist _)))).length_le
                omega
              rcases ihn _ hsub c hc3 with hm | hsp
              · have h4 := (List.dropWhile_sublist isRegexSpace).subset hm
                have h5 := (List.dropWhile_sublist isOrphanPunct).subset h4
                have h6 := (List.dropWhile_sublist isRegexSpace).subset h5
                exact Or.inl (List.mem_cons_of_mem _ h6)
              · exact Or.inr hsp
      · rw [if_neg h1] at hc
        exact hcons hc

theorem midOrphan_chars (l : List Char) (c : Char) (hc : c ∈ midOrphan l) :
    c ∈ l ∨ c = ' ' :=
  midOrphan_chars_bounded l.length l (le_refl _) c hc

theorem dropTrailOrphan_subset (l : List Char) : ∀ c ∈ dropTrailOrphan l, c ∈ l := by
  intro c hc
  unfold dropTrailOrphan at hc
  split at hc
  · exact hc
  · rw [List.mem_reverse] at hc
    have h1 := (List.dropWhile_sublist isOrphanPunct).subset hc
    have h2 := (List.dropWhile_sublist isRegexSpace).subset h1
    exact List.mem_reverse.mp h2

theorem leadOrphan_subset (l : List Char) : ∀ c ∈ leadOrphan l, c ∈ l := by
  intro c hc
  unfold leadOrphan at hc
  split at hc
  · exact hc
  · have h1 := (List.dropWhile_sublist isOrphanPunct).subset hc
    exact (List.dropWhile_sublist isRegexSpace).subset h1

theorem cleanOrphanedPunctuation_chars (s : String) :
    ∀ c ∈ (cleanOrphanedPunctuation s).data, c ∈ s.data ∨ c = ' ' := by
  intro c hc
  have hc2 : c ∈ leadOrphan (dropTrailOrphan (midOrphan s.data)) := hc
  have hc3 := dropTrailOrphan_subset _ c (leadOrphan_subset _ c hc2)
  exact midOrphan_chars s.data c hc3

theorem takeBytes_subset : ∀ (n : Nat) (l : List Char), ∀ c ∈ takeBytes n l, c ∈ l := by
  intro n l
  induction l generalizing n with
  | nil => intro c hc; cases hc
  | cons a l ih =>
    intro c hc
    unfold takeBytes at hc
    split at hc
    · rcases List.mem_cons.mp hc with rfl | hc2
      · exact List.mem_cons_self _ _
      · exact List.mem_cons_of_mem _ (ih _ c hc2)
    · cases hc

theorem cutAtLastSpace_subset (l : List Char) : ∀ c ∈ cutAtLastSpace l, c ∈ l := by
  intro c hc
  unfold cutAtLastSpace at hc
  rcases hdw : l.reverse.dropWhile (fun c => !(c == ' ')) with _ | ⟨a, rest⟩ <;>
    rw [hdw] at hc
  · exact hc
  · have hc2 : c ∈ (if utf8Len rest.reverse > 50 then rest.reverse else l) := hc
    split at hc2
    · rw [List.mem_reverse] at hc2
      have h1 : c ∈ a :: rest := List.mem_cons_of_mem _ hc2
      rw [← hdw] at h1
      have h2 := (List.dropWhile_sublist _).subset h1
      exact List.mem_reverse.mp h2
    · exact hc2

theorem truncateQuery_subset (s : String) : ∀ c ∈ (truncateQuery s).data, c ∈ s.data := by
  intro c hc
  unfold truncateQuery at hc
  split at hc
  · have hc2 : c ∈ cutAtLastSpace (takeBytes 100 s.data) := hc
    exact takeBytes_subset 100 s.data c (cutAtLastSpace_subset _ c hc2)
  · exact hc

theorem collapseWs_notUpper (l : List Char)
    (h : ∀ c ∈ l, notUpperChar c = true) :
    ∀ c ∈ collapseWs l, notUpperChar c = true := by
  intro c hc
  rcases collapseWsGo_chars l false c hc with ⟨hm, _⟩ | hsp
  · exact h c hm
  · rw [hsp]
    decide

/-- Claim C10: with an empty brand, `PreprocessQuery` returns a string
with no ASCII upper-case letter, whatever the size/pack/number regex steps
(abstracted as `f`) do: the noise-word-removal step rebuilds the string
from a lowercased copy, and every later step only deletes characters or
inserts spaces. -/
theorem C10_preprocess_lowercases (f : String → String) (productName : String) :
    (PreprocessQuery f productName "").data.all notUpperChar = true := by
  rw [List.all_eq_true]
  intro c hc
  unfold PreprocessQuery at hc
  by_cases hn : productName = ""
  · rw [if_pos hn] at hc
    cases hc
  · rw [if_neg hn] at hc
    have hbrand : brandStep ""
        (String.mk (trimSpace (collapseWs
          (cleanOrphanedPunctuation (removeNoiseWords (f productName))).data)))
        = String.mk (trimSpace (collapseWs
          (cleanOrphanedPunctuation (removeNoiseWords (f productName))).data)) := by
      unfold brandStep
      rw [if_neg]
      simp
    rw [hbrand] at hc
    have hc2 := truncateQuery_subset _ c hc
    have hc3 : c ∈ trimSpace (collapseWs
        (cleanOrphanedPunctuation (removeNoiseWords (f productName))).data) := hc2
    have hc4 := trimSpace_subset _ c hc3
    refine collapseWs_notUpper _ ?_ c hc4
    intro c2 hc5
    rcases cleanOrphanedPunctuation_chars _ c2 hc5 with hm | hsp
    · exact removeNoiseWords_notUpper _ c2 hm
    · rw [hsp]
      decide

end MacroLens
